import Mathlib

/-!
Verification of the web_recon discovery crawler and hierarchical graph
assembler.  Python strings are modelled as `List Char`; Python sets as
duplicate-free lists with insertion order; machine integers as `Nat`.
Fallible stdlib calls (`urllib.parse.urlparse` can raise `ValueError`
on an invalid IPv6 netloc) are modelled with `Option`.
-/

namespace WebRecon

/-- Python strings are modelled as lists of characters. -/
abbrev Str := List Char

/-- Coerce a Lean string literal to the `Str` model. -/
def str (x : String) : Str := x.data

/-- Python `s.lower()` (ASCII case folding, as used throughout the repo). -/
def lowerStr (s : Str) : Str := s.map Char.toLower

/-- Python `needle in hay` on strings: substring test. -/
def strHas (needle hay : Str) : Bool := decide (needle <:+: hay)

/-- Python `hay.endswith(suffix)`. -/
def strEnds (hay suffix : Str) : Bool := decide (suffix <:+ hay)

/-- Python `hay.startswith(pre)`. -/
def strStarts (hay pre : Str) : Bool := decide (pre <+: hay)

/-- Python `s.split(c, 1)`: the part before the first occurrence of `c`
and the part after it (the whole string and `""` when `c` is absent). -/
def splitFirst (c : Char) (s : Str) : Str × Str :=
  let pre := s.takeWhile (· ≠ c)
  (pre, (s.drop pre.length).tail)

/-- Python `s.split(c)` (full split, keeping empty parts). -/
def splitOnChar (c : Char) : Str → List Str
  | [] => [[]]
  | a :: rest =>
    match splitOnChar c rest with
    | [] => [[a]]
    | h :: t => if a = c then [] :: h :: t else (a :: h) :: t

/-- Python `s.rsplit(c, 1)[-1]`: everything after the last occurrence of
`c`, or the whole string when `c` is absent.  Also models
`s.rpartition(c)[2]`. -/
def rsplitLast (c : Char) (s : Str) : Str :=
  (s.reverse.takeWhile (· ≠ c)).reverse

/-- Python `s.strip()`. -/
def stripStr (s : Str) : Str :=
  ((s.dropWhile Char.isWhitespace).reverse.dropWhile Char.isWhitespace).reverse

/-! ## Model of `urllib.parse` (external stdlib collaborator)

Only the behaviour exercised by this repository is modelled: scheme /
netloc / path / query / fragment splitting, the `Invalid IPv6 URL`
`ValueError` (the only way `urlparse` raises, modelled as `none`),
hostname extraction, unsplitting, and `urljoin`.  Path parameters
(`;`) are not modelled. -/

structure UrlParts where
  scheme : Str
  netloc : Str
  path : Str
  query : Str
  fragment : Str
deriving Repr, DecidableEq

/-- Characters allowed in a URL scheme (`scheme_chars` in `urllib.parse`). -/
def isSchemeChar (c : Char) : Bool :=
  c.isAlpha || c.isDigit || c = '+' || c = '-' || c = '.'

/-- Scheme detection of `urllib.parse.urlsplit`: a leading `xyz:` is a
scheme when nonempty, starting with a letter, made of scheme chars. -/
def splitScheme (u : Str) : Str × Str :=
  let pre := u.takeWhile (· ≠ ':')
  if pre.length < u.length && pre ≠ [] && (pre.headD ' ').isAlpha
      && pre.all isSchemeChar then
    (lowerStr pre, u.drop (pre.length + 1))
  else ([], u)

/-- Model of `urllib.parse.urlsplit` (CPython 3.11): strip leading
C0-control/space characters, remove tab/CR/LF, split scheme, netloc,
fragment and query.  Returns `none` when Python raises
`ValueError("Invalid IPv6 URL")`: a netloc with `[` but no `]` or vice
versa.  (3.11's extra validation of the inside of a bracketed host is
not modelled; both raise paths are handled identically by this
repository — `classify_url` returns `"other"`, the crawl and the
builder skip the URL.) -/
def pyUrlsplit (u : Str) : Option UrlParts :=
  let u := u.dropWhile (fun c => c.toNat ≤ 0x20)
  let u := u.filter (fun c => !(c = '\t' || c = '\r' || c = '\n'))
  let (scheme, rest) := splitScheme u
  let (netloc, rest) :=
    if strStarts rest (str "//") then
      ((rest.drop 2).takeWhile (fun c => c ≠ '/' && c ≠ '?' && c ≠ '#'),
       (rest.drop 2).dropWhile (fun c => c ≠ '/' && c ≠ '?' && c ≠ '#'))
    else ([], rest)
  if (netloc.contains '[' && !netloc.contains ']')
      || (netloc.contains ']' && !netloc.contains '[') then none
  else
    let (rest, fragment) := splitFirst '#' rest
    let (path, query) := splitFirst '?' rest
    some ⟨scheme, netloc, path, query, fragment⟩

/-- Model of `SplitResult.hostname` of `urllib.parse`: drop userinfo (after the
last `@`), strip a bracketed IPv6 literal or a `:port`, lowercase. -/
def pyHostname (netloc : Str) : Str :=
  let hostinfo := rsplitLast '@' netloc
  let host :=
    if hostinfo.contains '[' then
      (splitFirst ']' (splitFirst '[' hostinfo).2).1
    else (splitFirst ':' hostinfo).1
  lowerStr host

/-- Model of `urllib.parse.urlunsplit` (the repo only reassembles without
params, and `normalize_url` clears the fragment before calling it). -/
def pyUrlunsplit (p : UrlParts) : Str :=
  let url := p.path
  let url :=
    if p.netloc ≠ [] || strStarts url (str "//") then
      (str "//") ++ p.netloc
        ++ (if url ≠ [] && !strStarts url (str "/") then '/' :: url else url)
    else url
  let url := if p.scheme ≠ [] then p.scheme ++ ':' :: url else url
  let url := if p.query ≠ [] then url ++ '?' :: p.query else url
  if p.fragment ≠ [] then url ++ '#' :: p.fragment else url

/-- Model of `uses_relative` scheme list of `urllib.parse`. -/
def usesRelative : List Str :=
  [str "", str "ftp", str "http", str "gopher", str "nntp", str "imap",
   str "wais", str "file", str "https", str "shttp", str "mms",
   str "prospero", str "rtsp", str "rtspu", str "sftp", str "svn",
   str "svn+ssh", str "ws", str "wss"]

/-- Model of `uses_netloc` scheme list of `urllib.parse`. -/
def usesNetloc : List Str :=
  [str "", str "ftp", str "http", str "gopher", str "nntp", str "telnet",
   str "imap", str "wais", str "file", str "mms", str "https", str "shttp",
   str "snews", str "prospero", str "rtsp", str "rtspu", str "rsync",
   str "svn", str "svn+ssh", str "sftp", str "nfs", str "git",
   str "git+ssh", str "ws", str "wss", str "itms-services"]

/-- The `..` / `.` segment resolution loop inside `urljoin`. -/
def resolveDots (segments : List Str) : List Str :=
  segments.foldl
    (fun acc seg =>
      if seg = str ".." then acc.dropLast
      else if seg = str "." then acc
      else acc ++ [seg]) []

/-- Model of `urllib.parse.urljoin`.  `none` models a `ValueError` escaping from
`urlsplit` on either argument. -/
def pyUrljoin (base url : Str) : Option Str :=
  if base = [] then some url
  else if url = [] then some base
  else
    match pyUrlsplit base, pyUrlsplit url with
    | some b, some p =>
      let scheme := if p.scheme = [] then b.scheme else p.scheme
      if scheme ≠ b.scheme || !usesRelative.contains scheme then some url
      else
        let useNl := usesNetloc.contains scheme
        if useNl && p.netloc ≠ [] then
          some (pyUrlunsplit { p with scheme := scheme })
        else
          let netloc := if useNl then b.netloc else p.netloc
          if p.path = [] then
            let q := if p.query = [] then b.query else p.query
            some (pyUrlunsplit ⟨scheme, netloc, b.path, q, p.fragment⟩)
          else
            let baseParts := splitOnChar '/' b.path
            let baseParts :=
              if baseParts.getLastD [] ≠ [] then baseParts.dropLast
              else baseParts
            let segments :=
              if strStarts p.path (str "/") then splitOnChar '/' p.path
              else
                let segs := baseParts ++ splitOnChar '/' p.path
                match segs with
                | [] => []
                | [single] => [single]
                | first :: more =>
                  first :: (more.dropLast.filter (· ≠ [])) ++ [more.getLastD []]
            let resolved := resolveDots segments
            let resolved :=
              if segments.getLastD [] = str "." || segments.getLastD [] = str ".."
              then resolved ++ [[]] else resolved
            let joined := List.intercalate (str "/") resolved
            let path := if joined = [] then str "/" else joined
            some (pyUrlunsplit ⟨scheme, netloc, path, p.query, p.fragment⟩)
    | _, _ => none

example : pyUrlsplit (str "https://example.com/a/b?x=1#f")
    = some ⟨str "https", str "example.com", str "/a/b", str "x=1", str "f"⟩ := by decide
example : pyUrlsplit (str "HTTPS://Example.com/Q?a#b")
    = some ⟨str "https", str "Example.com", str "/Q", str "a", str "b"⟩ := by decide
example : pyUrlsplit (str "//proto/rel")
    = some ⟨[], str "proto", str "/rel", [], []⟩ := by decide
example : pyUrlsplit (str "mailto:x@y")
    = some ⟨str "mailto", [], str "x@y", [], []⟩ := by decide
example : pyUrlsplit (str "example.com/foo")
    = some ⟨[], [], str "example.com/foo", [], []⟩ := by decide
example : pyUrlsplit (str "http://[") = none := by decide
example : pyHostname (str "user:pw@Example.COM:8080") = str "example.com" := by decide
example : pyUrljoin (str "https://example.com/") (str "https://evil.com/x")
    = some (str "https://evil.com/x") := by decide
example : pyUrljoin (str "https://example.com/?query=a") (str "https://example.com/?query=a")
    = some (str "https://example.com/?query=a") := by decide

/-! ## `src/recon/url_classify.py` -/

/-- Model of `ASSET_EXTS` of `url_classify.py`. -/
def ASSET_EXTS : List Str :=
  [str "js", str "css", str "png", str "jpg", str "jpeg", str "gif",
   str "svg", str "ico", str "webp", str "woff", str "woff2", str "ttf",
   str "eot", str "map", str "mp4", str "webm", str "mp3", str "wav",
   str "pdf", str "zip", str "gz", str "tar", str "rar", str "7z",
   str "xml", str "txt", str "json"]

/-- Model of `ASSET_PATH_HINTS` of `url_classify.py`. -/
def ASSET_PATH_HINTS : List Str :=
  [str "/static/", str "/assets/", str "/images/", str "/img/",
   str "/fonts/", str "/cdn-cgi/"]

/-- Model of `API_HINTS` of `url_classify.py`. -/
def API_HINTS : List Str :=
  [str "/api/", str "/graphql", str "/v1/", str "/v2/", str "/search",
   str "/query", str "/autocomplete"]

/-- Model of `FEED_HINTS` of `url_classify.py`. -/
def FEED_HINTS : List Str := [str "/rss", str "/atom"]

/-- Model of `ASSET_NAME_HINTS` of `url_classify.py`. -/
def ASSET_NAME_HINTS : List Str :=
  [str "favicon", str "apple-touch-icon", str "manifest.json",
   str "browserconfig.xml", str "safari-pinned-tab.svg"]

/-- Model of `url_classify.normalize_url`. -/
def normalize_url (base raw : Str) : Str :=
  if raw = [] then []
  else
    let raw' :=
      if strStarts raw (str "//") then
        match pyUrlsplit base with
        | none => none
        | some pb => some (pb.scheme ++ ':' :: raw)
      else some raw
    match raw' with
    | none => []
    | some raw =>
      match pyUrljoin base raw with
      | none => []
      | some absolute =>
        match pyUrlsplit absolute with
        | none => []
        | some p =>
          if p.scheme = [] || p.netloc = [] then []
          else pyUrlunsplit { p with fragment := [] }

/-- Model of `url_classify.classify_url`.  Note the source returns the string
`"other"` (not `"page"`) when `urlparse` raises. -/
def classify_url (url : Str) : Str :=
  match pyUrlsplit url with
  | none => str "other"
  | some p =>
    let path := lowerStr p.path
    let name := rsplitLast '/' path
    if FEED_HINTS.any (fun h => strEnds path h) then str "feed"
    else if name = str "robots.txt" || name = str "sitemap.xml" then str "page"
    else if ASSET_NAME_HINTS.any (fun h => strHas h name) then str "asset"
    else if ASSET_PATH_HINTS.any (fun h => strHas h path) then str "asset"
    else
      let ext := if path.contains '.' then rsplitLast '.' path else []
      if ext = str "xml" || ext = str "txt" then
        if name = str "robots.txt" || name = str "sitemap.xml" then str "page"
        else str "asset"
      else if ext = str "json" then
        if API_HINTS.any (fun h => strHas h path) then str "api"
        else str "asset"
      else if ASSET_EXTS.contains ext then str "asset"
      else if API_HINTS.any (fun h => strHas h path) then str "api"
      else str "page"

/-- Model of `url_classify.should_graph`. -/
def should_graph (url_type : Str) : Bool :=
  url_type = str "page" || url_type = str "api"

example : classify_url (str "https://example.com/favicon.ico") = str "asset" := by decide
example : classify_url (str "https://example.com/robots.txt") = str "page" := by decide
example : classify_url (str "https://example.com/api/v2/users") = str "api" := by decide
example : classify_url (str "https://example.com/feed/rss") = str "feed" := by decide
example : classify_url (str "http://[") = str "other" := by decide
example : classify_url (str "https://example.com/about") = str "page" := by decide
example : classify_url (str "https://example.com/manifest.json") = str "asset" := by decide
example : classify_url (str "https://example.com/api/data.json") = str "api" := by decide
example : normalize_url (str "https://example.com/a#frag") (str "https://example.com/a#frag")
    = str "https://example.com/a" := by decide

/-! ## `src/scripts/build_hierarchical_json.py` -/

/-- Model of `FILE_EXTS` of `build_hierarchical_json.py`. -/
def FILE_EXTS : List Str :=
  [str "html", str "htm", str "php", str "asp", str "aspx", str "jsp",
   str "js", str "css", str "png", str "jpg", str "jpeg", str "gif",
   str "svg", str "ico", str "pdf", str "xml", str "json", str "txt",
   str "csv", str "zip", str "gz", str "tar", str "rar", str "7z",
   str "mp4", str "woff", str "woff2", str "ttf", str "eot"]

/-- Model of `apex_of`: the last two dot-separated labels of the lowercased host
(naive apex extraction; same logic in `build_hierarchical_json.py` and
`html_link_discovery.py`). -/
def apex_of (host : Str) : Str :=
  let host := lowerStr host
  let parts := splitOnChar '.' host
  if parts.length ≥ 2 then
    List.intercalate (str ".") (parts.drop (parts.length - 2))
  else host

/-- Model of `build_hierarchical_json.get_host`: hostname via `urlparse` when the
string has a scheme and hostname, else strip a leading `http(s)://` and
take everything before the first `/`, lowercased. -/
def get_host (url_or_host : Str) : Str :=
  let s0 := stripStr url_or_host
  let fromParse :=
    match pyUrlsplit s0 with
    | none => none
    | some p =>
      let h := pyHostname p.netloc
      if p.scheme ≠ [] && h ≠ [] then some (lowerStr h) else none
  match fromParse with
  | some h => h
  | none =>
    let s1 :=
      if strStarts (lowerStr s0) (str "http://") then s0.drop 7
      else if strStarts (lowerStr s0) (str "https://") then s0.drop 8
      else s0
    lowerStr ((splitOnChar '/' s1).headD [])

/-- Model of `re.sub(r'/+', '/', path)`: collapse runs of slashes. -/
def collapseSlashes : Str → Str
  | [] => []
  | [a] => [a]
  | a :: b :: rest =>
    if a = '/' && b = '/' then collapseSlashes (b :: rest)
    else a :: collapseSlashes (b :: rest)

/-- Model of `build_hierarchical_json.split_segments`. -/
def split_segments (path : Str) : List Str :=
  let path := collapseSlashes (if path = [] then str "/" else path)
  (splitOnChar '/' path).filter (· ≠ [])

/-- Model of `build_hierarchical_json.is_file_segment`. -/
def is_file_segment (seg : Str) : Bool :=
  if seg = [] || !seg.contains '.' then false
  else FILE_EXTS.contains (lowerStr ((splitOnChar '.' seg).getLastD []))

/-- A node of the hierarchy; the source stores `{'id': value, 'value':
value, 'type': ntype}`, with `id` always equal to `value`. -/
structure GNode where
  value : Str
  ntype : Str
deriving Repr, DecidableEq

/-- An edge record `{'source': src, 'target': tgt, 'type': rtype}`. -/
structure GEdge where
  source : Str
  target : Str
  rtype : Str
deriving Repr, DecidableEq

/-- Model of `build_hierarchical_json.add_node`: first-write-wins keyed map. -/
def add_node (nodes : List GNode) (value ntype : Str) : List GNode :=
  if nodes.any (fun n => n.value == value) then nodes
  else nodes ++ [⟨value, ntype⟩]

/-- Model of `build_hierarchical_json.add_edge`: keyed by `(src, tgt, 'contains')`. -/
def add_edge (edges : List GEdge) (src tgt : Str) : List GEdge :=
  if edges.any (fun e => e.source == src && e.target == tgt
      && e.rtype == str "contains") then edges
  else edges ++ [⟨src, tgt, str "contains"⟩]

/-- The per-segment walk of `build_hierarchy` (lines 98-106): build the
cumulative prefix, add a node `host ++ cumulative`, an edge from the
previous node, and recurse. -/
def walkSegs (nodes : List GNode) (edges : List GEdge) (host prev cumulative : Str) :
    List Str → List GNode × List GEdge
  | [] => (nodes, edges)
  | seg :: rest =>
    let c := if cumulative = [] then '/' :: seg else cumulative ++ '/' :: seg
    let node_value := host ++ c
    let ntype :=
      if rest = [] && is_file_segment seg then str "endpoint" else str "directory"
    let nodes := add_node nodes node_value ntype
    let edges := add_edge edges prev node_value
    walkSegs nodes edges host node_value c rest

/-- Host resolution inside `build_hierarchy`'s URL loop:
`(p.hostname or '').lower()`, falling back to `get_host(raw)`. -/
def hierHost (raw : Str) (p : UrlParts) : Str :=
  let host := lowerStr (pyHostname p.netloc)
  if host = [] then get_host raw else host

/-- One iteration of `build_hierarchy`'s `for raw in urls` loop
(lines 81-108); a `urlparse` exception skips the URL. -/
def processUrl (st : List GNode × List GEdge) (raw : Str) : List GNode × List GEdge :=
  match pyUrlsplit raw with
  | none => st
  | some p =>
    let host := hierHost raw p
    if host = [] then st
    else
      let nodes := add_node st.1 host
        (if host ≠ apex_of host then str "subdomain" else str "domain")
      let segs := split_segments p.path
      if segs = [] && p.query ≠ [] then
        let node_value := host ++ str "/?" ++ p.query
        (add_node nodes node_value (str "endpoint"), add_edge st.2 host node_value)
      else
        walkSegs nodes st.2 host host [] segs

/-- The `discovered` dictionary of a crawl result (§3 of the spec);
missing keys are the empty list. -/
structure Discovered where
  subdomains : List Str
  directories_by_host : List (Str × List Str)
  urls : List Str
  pages : List Str
  api : List Str
  feeds : List Str
  assets : List Str
  routes : List Str
  js_files : List Str
  requests : List Str
  query_urls : List Str
deriving Repr, DecidableEq

/-- Output of `build_hierarchy`. -/
structure Hierarchy where
  nodes : List GNode
  relationships : List GEdge
deriving Repr, DecidableEq

/-- Model of `build_hierarchical_json.build_hierarchy`.  Note it reads only
`pages` (falling back to `urls`), `api` and `subdomains`;
`directories_by_host` is never consulted. -/
def build_hierarchy (discovered : Discovered) : Hierarchy :=
  let page_urls :=
    if discovered.pages ≠ [] then discovered.pages else discovered.urls
  let api_urls := discovered.api
  let urls := (page_urls ++ api_urls).filter (fun u => should_graph (classify_url u))
  let seedNodes := discovered.subdomains.foldl
    (fun nodes h =>
      add_node nodes h (if h ≠ apex_of h then str "subdomain" else str "domain")) []
  let st := urls.foldl processUrl (seedNodes, [])
  ⟨st.1, st.2⟩

/-! Characterizations used to prove order-independence: the set of node
values and the set of edges contributed by one URL, independent of the
accumulated state. -/

/-- Node values created by the segment walk of one URL. -/
def segValues (host cumulative : Str) : List Str → List Str
  | [] => []
  | seg :: rest =>
    let c := if cumulative = [] then '/' :: seg else cumulative ++ '/' :: seg
    (host ++ c) :: segValues host c rest

/-- Edges created by the segment walk of one URL. -/
def segEdges (host prev cumulative : Str) : List Str → List GEdge
  | [] => []
  | seg :: rest =>
    let c := if cumulative = [] then '/' :: seg else cumulative ++ '/' :: seg
    let node_value := host ++ c
    ⟨prev, node_value, str "contains"⟩ :: segEdges host node_value c rest

/-- All node values `processUrl` can create for one URL. -/
def urlNodeValues (raw : Str) : List Str :=
  match pyUrlsplit raw with
  | none => []
  | some p =>
    let host := hierHost raw p
    if host = [] then []
    else
      let segs := split_segments p.path
      if segs = [] && p.query ≠ [] then [host, host ++ str "/?" ++ p.query]
      else host :: segValues host [] segs

/-- All edges `processUrl` can create for one URL. -/
def urlEdges (raw : Str) : List GEdge :=
  match pyUrlsplit raw with
  | none => []
  | some p =>
    let host := hierHost raw p
    if host = [] then []
    else
      let segs := split_segments p.path
      if segs = [] && p.query ≠ [] then
        [⟨host, host ++ str "/?" ++ p.query, str "contains"⟩]
      else segEdges host host [] segs

example :
    build_hierarchy ⟨[], [], [], [str "https://a.example.com/blog/post1.html",
      str "https://a.example.com/blog/post2.html"], [], [], [], [], [], [], []⟩ =
    ⟨[⟨str "a.example.com", str "subdomain"⟩,
      ⟨str "a.example.com/blog", str "directory"⟩,
      ⟨str "a.example.com/blog/post1.html", str "endpoint"⟩,
      ⟨str "a.example.com/blog/post2.html", str "endpoint"⟩],
     [⟨str "a.example.com", str "a.example.com/blog", str "contains"⟩,
      ⟨str "a.example.com/blog", str "a.example.com/blog/post1.html", str "contains"⟩,
      ⟨str "a.example.com/blog", str "a.example.com/blog/post2.html", str "contains"⟩]⟩ := by
  decide

/-! ## `src/recon/html_link_discovery.py` — the crawl frontier

The crawl is modelled in the configuration where `requests` is
importable and `classify_url` / `normalize_url` are available, with
`js_config=None` and `headless=False` (their default values), so the
script-analysis and headless blocks are skipped.  (In the shipped tree
the `from recon.js_route_discovery import ...` line raises at import
time — see the `FETCH_REGEX` development below — and the `except`
fallback sets `classify_url`/`normalize_url` to `None`; the claims are
settled against the classifier-enabled code path, which is the one the
spec describes.)

The network and the HTML parser are external collaborators: a fetch
oracle returns, for a URL, either `none` (exception / timeout) or the
response status, whether `'text/html'` occurs in the Content-Type,
whether `'<html'` occurs in the lowercased body, the post-redirect
final URL `r.url`, the output of `extract_links(html, r.url)`, and the
output of `extract_search_targets(html)`.  Two ghost fields
(`everEnqueued`, `fetched`) record every pair ever appended to the
queue and every dequeued entry for which a fetch was attempted; they
receive exactly the elements the real queue receives and never
influence control flow. -/

/-- One fetched response, as consumed by the crawl loop. -/
structure FetchResult where
  status : Nat
  ctHtml : Bool
  bodyHtml : Bool
  finalUrl : Str
  links : List Str
  searchTargets : List Str
deriving Repr

/-- Python `set.add` on an insertion-ordered duplicate-free list. -/
def pyInsert (x : Str) (l : List Str) : List Str :=
  if l.contains x then l else l ++ [x]

/-- Python `set.union`. -/
def pyUnion (a b : List Str) : List Str :=
  a ++ b.filter (fun x => !a.contains x)

/-- Model of `defaultdict(set)` update: `directories_by_host[host].add(seg)`. -/
def dirsInsert (host seg : Str) : List (Str × List Str) → List (Str × List Str)
  | [] => [(host, [seg])]
  | (h, vs) :: rest =>
    if h = host then (h, pyInsert seg vs) :: rest
    else (h, vs) :: dirsInsert host seg rest

/-- Model of `html_link_discovery.is_http_url`: `re.match(r"^https?://", u, re.I)`. -/
def is_http_url (u : Str) : Bool :=
  strStarts (lowerStr u) (str "http://") || strStarts (lowerStr u) (str "https://")

/-- Model of `html_link_discovery.absolute_url`: `urljoin(base, href)`, returning
`href` unchanged when `urljoin` raises. -/
def absolute_url (base href : Str) : Str :=
  match pyUrljoin base href with
  | some u => u
  | none => href

/-- Model of `html_link_discovery.build_query_urls`. -/
def build_query_urls (base_url : Str) (seeds : List Str) : List Str :=
  ((seeds.map stripStr).filter (· ≠ [])).map
    (fun qv =>
      if base_url.contains '?' then base_url ++ str "&query=" ++ qv
      else base_url ++ str "?query=" ++ qv)

/-- Model of `html_link_discovery.normalize_existing` in the configuration where
`normalize_url` imported successfully: `normalize_url(u, u)`. -/
def normalize_existing (u : Str) : Str := normalize_url u u

/-- Crawl-run state: the local sets and queue of `crawl`, plus the two
ghost histories. -/
structure CrawlState where
  visited : List Str
  queue : List (Str × Nat)
  discovered_urls : List Str
  pages : List Str
  api : List Str
  feeds : List Str
  assets : List Str
  routes : List Str
  js_files : List Str
  query_urls : List Str
  network_requests : List Str
  subdomains : List Str
  dirs : List (Str × List Str)
  everEnqueued : List (Str × Nat)
  fetched : List (Str × Nat)
deriving Repr

/-- Crawl parameters (`start_urls` is passed separately): apex domain,
`max_pages`, `max_depth`, `seed_queries`, and the fetch oracle. -/
structure CrawlCfg where
  apex : Str
  maxPages : Nat
  maxDepth : Nat
  seedQueries : List Str
  fetch : Str → Option FetchResult

/-- The classify-and-record dispatch of the link loop (lines 233-244):
`asset`/`feed`/`api` go to their buckets, anything else to `pages`. -/
def recordLink (link kind : Str) (st : CrawlState) : CrawlState :=
  if kind = str "asset" then { st with assets := pyInsert link st.assets }
  else if kind = str "feed" then { st with feeds := pyInsert link st.feeds }
  else if kind = str "api" then { st with api := pyInsert link st.api }
  else { st with pages := pyInsert link st.pages }

/-- The classify-by-host bookkeeping of the link loop (lines 245-256):
subdomains are collected; for the apex host a page/api link's first
path segment goes into the directory site-map. -/
def recordHostDir (apex host kind ppath : Str) (st : CrawlState) : CrawlState :=
  if strEnds host ('.' :: apex) && host ≠ apex then
    { st with subdomains := pyInsert host st.subdomains }
  else if host = apex then
    if (kind = str "page" || kind = str "api") && ppath ≠ [] then
      match (splitOnChar '/' ppath).filter (· ≠ []) with
      | [] => st
      | sg :: _ => { st with dirs := dirsInsert host ('/' :: sg) st.dirs }
    else st
  else st

/-- The schedule step of the link loop (lines 257-261): enqueue at
`depth+1` when depth allows and the link is in scope and not yet
visited — the classification is not consulted. -/
def scheduleLink (apex : Str) (maxDepth depth : Nat) (host link : Str)
    (st : CrawlState) : CrawlState :=
  if depth < maxDepth && (host = apex || strEnds host ('.' :: apex)) then
    if !st.visited.contains link then
      { st with queue := st.queue ++ [(link, depth + 1)],
                everEnqueued := st.everEnqueued ++ [(link, depth + 1)] }
    else st
  else st

/-- The `for link in links` body of `crawl` (lines 221-261): parse,
require an http(s) scheme and an in-scope host, classify and record,
do the host/directory bookkeeping, and schedule the link. -/
def processLink (apex : Str) (maxDepth depth : Nat) (st : CrawlState) (link : Str) :
    CrawlState :=
  match pyUrlsplit link with
  | none => st
  | some p =>
    if !strStarts p.scheme (str "http") then st
    else
      let host := lowerStr (pyHostname p.netloc)
      if host = [] then st
      else if host ≠ apex && !strEnds host ('.' :: apex) then st
      else
        let kind := classify_url link
        scheduleLink apex maxDepth depth host link
          (recordHostDir apex host kind p.path (recordLink link kind st))

/-- The seed-query block of `crawl` (lines 195-198). -/
def addQueryUrls (st : CrawlState) (qurls : List Str) : CrawlState :=
  qurls.foldl
    (fun st qurl =>
      { st with query_urls := pyInsert qurl st.query_urls,
                pages := pyInsert qurl st.pages }) st

/-- The search-target block of `crawl` (lines 199-202): resolve each
`"target"` value against `r.url` and record it in `pages` when it is
an http(s) URL — with no scope check. -/
def addSearchTargets (finalUrl : Str) (st : CrawlState) (targets : List Str) :
    CrawlState :=
  targets.foldl
    (fun st target =>
      let candidate := absolute_url finalUrl target
      if is_http_url candidate then { st with pages := pyInsert candidate st.pages }
      else st) st

/-- One iteration of the crawl loop after the pop (lines 178-263):
skip if visited, else mark visited, fetch, and on an HTML 2xx/3xx
response record the final URL, seed-query URLs, search targets, and
process every extracted link. -/
def processEntry (cfg : CrawlCfg) (st : CrawlState) (url : Str) (depth : Nat) :
    CrawlState :=
  if st.visited.contains url then st
  else
    let st := { st with visited := st.visited ++ [url],
                        discovered_urls := pyInsert url st.discovered_urls,
                        fetched := st.fetched ++ [(url, depth)] }
    match cfg.fetch url with
    | none => st
    | some r =>
      if r.status ≥ 400 then st
      else if !r.ctHtml && !r.bodyHtml then st
      else
        let st := { st with pages := pyInsert r.finalUrl st.pages }
        let st :=
          if cfg.seedQueries ≠ [] then
            addQueryUrls st (build_query_urls r.finalUrl cfg.seedQueries)
          else st
        let st := addSearchTargets r.finalUrl st r.searchTargets
        r.links.foldl (processLink cfg.apex cfg.maxDepth depth) st

/-- The `while q and len(visited) < max_pages` loop, fuel-indexed (the
fuel is an embedding artifact; every claim is proved for all fuels or
at a fuel large enough to drain the queue). -/
def crawlLoop (cfg : CrawlCfg) : Nat → CrawlState → CrawlState
  | 0, st => st
  | fuel + 1, st =>
    match st.queue with
    | [] => st
    | (url, depth) :: rest =>
      if st.visited.length < cfg.maxPages then
        crawlLoop cfg fuel (processEntry cfg { st with queue := rest } url depth)
      else st

/-- Initial crawl state: the start URLs at depth 0. -/
def initState (startUrls : List Str) : CrawlState :=
  { visited := [], queue := startUrls.map ((·, 0)),
    discovered_urls := [], pages := [], api := [], feeds := [], assets := [],
    routes := [], js_files := [], query_urls := [], network_requests := [],
    subdomains := [], dirs := [],
    everEnqueued := startUrls.map ((·, 0)), fetched := [] }

/-- Python string comparison (lexicographic on code points). -/
def strLe : Str → Str → Bool
  | [], _ => true
  | _ :: _, [] => false
  | a :: as, b :: bs => if a = b then strLe as bs else decide (a < b)

/-- Insertion step of `sorted`. -/
def insertSorted (x : Str) : List Str → List Str
  | [] => [x]
  | y :: ys => if strLe x y then x :: y :: ys else y :: insertSorted x ys

/-- Python `sorted(...)` on strings (insertion sort; only the membership
and ordering semantics matter). -/
def pySorted (l : List Str) : List Str := l.foldr insertSorted []

/-- Python `sorted({...})`: deduplicate, then sort. -/
def sortedSet (l : List Str) : List Str := pySorted l.dedup

/-- The result dictionary of `crawl`. -/
structure CrawlOutput where
  pages_crawled : Nat
  discovered : Discovered
deriving Repr

/-- The serialization epilogue of `crawl` (lines 267-289).  `pages` (and
the identical `urls`) serializes `pages.union(routes)`; every bucket is
normalized, filtered of empty strings, deduplicated and sorted. -/
def serialize_crawl (st : CrawlState) : CrawlOutput :=
  let pages_clean :=
    sortedSet (((pyUnion st.pages st.routes).map normalize_existing).filter (· ≠ []))
  let api_clean := sortedSet ((st.api.map normalize_existing).filter (· ≠ []))
  let feeds_clean := sortedSet ((st.feeds.map normalize_existing).filter (· ≠ []))
  let assets_clean := sortedSet ((st.assets.map normalize_existing).filter (· ≠ []))
  let routes_clean := sortedSet ((st.routes.map normalize_existing).filter (· ≠ []))
  { pages_crawled := st.visited.length,
    discovered :=
      { subdomains := pySorted st.subdomains,
        directories_by_host := st.dirs.map (fun hv => (hv.1, pySorted hv.2)),
        urls := pages_clean, pages := pages_clean, api := api_clean,
        feeds := feeds_clean, assets := assets_clean, routes := routes_clean,
        js_files := pySorted st.js_files,
        requests := pySorted st.network_requests,
        query_urls := pySorted st.query_urls } }

/-- Model of `html_link_discovery.crawl` (modelled configuration as above). -/
def crawl (cfg : CrawlCfg) (startUrls : List Str) (fuel : Nat) : CrawlOutput :=
  serialize_crawl (crawlLoop cfg fuel (initState startUrls))

/-- The scope filter of the crawl, as tested on a candidate link
(lines 222-231): parseable, `scheme.startswith('http')`, nonempty
host equal to the apex or ending in `'.' + apex`. -/
def linkInScope (apex link : Str) : Bool :=
  match pyUrlsplit link with
  | none => false
  | some p =>
    strStarts p.scheme (str "http") &&
      (let host := lowerStr (pyHostname p.netloc)
       host ≠ [] && (host = apex || strEnds host ('.' :: apex)))

/-! ## `src/recon/js_route_discovery.py` — import-time regex patterns

The module compiles four patterns at import time (lines 15-18).  The
`FETCH_REGEX` raw string contains doubled backslashes, so `\\(` is the
regex escape `\\` (a literal backslash) followed by a bare `(` that
opens a capture group which is never closed. -/

/-- The exact characters of the `FETCH_REGEX` raw-string literal
(line 18 of `js_route_discovery.py`). -/
def FETCH_REGEX_SOURCE : Str :=
  str "(?:fetch|axios\\\\.(?:get|post|put|delete)|open)\\\\s*\\\\(\\\\s*['\\\"]([^'\\\"]+)['\\\"]"

/-- The characters of the `URL_REGEX` raw-string literal (line 15). -/
def URL_REGEX_SOURCE : Str := str "https?://[^\\s'\\\"\\\\)]+"

/-- Scan a Python regex pattern for balanced group parentheses: a `\\`
escapes the next character, `[` ... `]` delimits a character class in
which parentheses are literals, an unescaped `(` outside a class opens
a group and `)` closes one.  `re.compile` rejects exactly the
unbalanced cases with `missing ), unterminated subpattern` or
`unbalanced parenthesis`. -/
def regexGroupScan : Str → Bool → Nat → Bool
  | [], inClass, depth => !inClass && depth = 0
  | '\\' :: rest, inClass, depth =>
    match rest with
    | [] => false
    | _ :: rest' => regexGroupScan rest' inClass depth
  | c :: rest, true, depth =>
    if c = ']' then regexGroupScan rest false depth
    else regexGroupScan rest true depth
  | c :: rest, false, depth =>
    if c = '[' then regexGroupScan rest true depth
    else if c = '(' then regexGroupScan rest false (depth + 1)
    else if c = ')' then
      match depth with
      | 0 => false
      | d + 1 => regexGroupScan rest false d
    else regexGroupScan rest false depth

/-- Group balance of a whole pattern. -/
def regexGroupsBalanced (pattern : Str) : Bool := regexGroupScan pattern false 0

example : regexGroupsBalanced URL_REGEX_SOURCE = true := by decide

/-- C9: the claim is right about the intent and wrong about the code:
`FETCH_REGEX`'s pattern has an unclosed group (the over-escaped `\\(`),
so `re.compile` raises `re.error: missing ), unterminated subpattern`
when the module is imported and no fetch/XHR first argument is ever
harvested. -/
theorem fetch_regex_unbalanced : regexGroupsBalanced FETCH_REGEX_SOURCE = false := by
  decide

/-- C4 counterexample: for the unparseable URL `"http://["` (urlparse
raises `Invalid IPv6 URL`), `classify_url` returns `"other"`, which is
not one of the four claimed categories — in particular not `"page"`. -/
theorem classify_url_unparseable_cex :
    classify_url (str "http://[") = str "other" ∧
    ¬(classify_url (str "http://[") = str "page" ∨
      classify_url (str "http://[") = str "api" ∨
      classify_url (str "http://[") = str "asset" ∨
      classify_url (str "http://[") = str "feed") := by
  decide

/-- C4 (amended): `classify_url` is total and deterministic, its result
is always one of the five strings `page`, `api`, `asset`, `feed`,
`other`, and for an unparseable URL the result is `"other"` (callers
route every result other than asset/feed/api into the page bucket). -/
theorem classify_url_total (url : Str) :
    (classify_url url = str "page" ∨ classify_url url = str "api" ∨
     classify_url url = str "asset" ∨ classify_url url = str "feed" ∨
     classify_url url = str "other") ∧
    (pyUrlsplit url = none → classify_url url = str "other") := by
  constructor
  · unfold classify_url
    cases pyUrlsplit url with
    | none => simp
    | some p =>
      simp only
      repeat' split
      all_goals simp
  · intro h
    unfold classify_url
    rw [h]

/-- C4 witness: the amended theorem applied at the concrete unparseable
input. -/
theorem classify_url_total_witness :
    classify_url (str "http://[") = str "other" :=
  (classify_url_total (str "http://[")).2 (by decide)

/-- Helper: `takeWhile` over `l₁ ++ a :: l₂` yields `l₁` when every
element of `l₁` passes and `a` fails. -/
theorem takeWhile_append_sentinel {p : Char → Bool} {l₁ : Str} {a : Char} (l₂ : Str)
    (h : ∀ x ∈ l₁, p x = true) (ha : p a = false) :
    (l₁ ++ a :: l₂).takeWhile p = l₁ := by
  induction l₁ with
  | nil => simp [List.takeWhile, ha]
  | cons x xs ih =>
    have hx : p x = true := h x (by simp)
    simp only [List.cons_append, List.takeWhile_cons, hx]
    simp only [ite_true]
    rw [ih (fun y hy => h y (by simp [hy]))]

/-- Helper: the last path component equals `tail` when the path ends in
`'/' :: tail` and `tail` contains no slash. -/
theorem rsplitLast_of_suffix {tail l : Str} (hnc : '/' ∉ tail)
    (hs : ('/' :: tail) <:+ l) : rsplitLast '/' l = tail := by
  obtain ⟨pre, rfl⟩ := hs
  unfold rsplitLast
  rw [List.reverse_append, List.reverse_cons]
  rw [List.append_assoc, List.singleton_append]
  rw [takeWhile_append_sentinel _ (fun x hx => by
        simp only [decide_eq_true_eq]
        intro hEq
        exact hnc (by simpa [hEq] using List.mem_reverse.mp hx))
      (by simp)]
  exact List.reverse_reverse tail

/-- C7: asset-name hints fire before generic extension rules and the
crawl-control exception fires before the `.txt` asset default:
`favicon.ico` is an asset, `robots.txt` is a page, and every parseable
URL whose filename contains `manifest.json` classifies as asset (never
`api`, despite `.json`). -/
theorem classify_url_priority :
    classify_url (str "https://example.com/favicon.ico") = str "asset" ∧
    classify_url (str "https://example.com/robots.txt") = str "page" ∧
    ∀ (url : Str) (p : UrlParts), pyUrlsplit url = some p →
      strHas (str "manifest.json") (rsplitLast '/' (lowerStr p.path)) = true →
      classify_url url = str "asset" := by
  refine ⟨by decide, by decide, ?_⟩
  intro url p hp hm
  have hinf : (str "manifest.json") <:+: rsplitLast '/' (lowerStr p.path) := by
    simpa [strHas] using hm
  have hlen : 13 ≤ (rsplitLast '/' (lowerStr p.path)).length := by
    have := hinf.length_le
    simpa using this
  have hshort : ∀ t : Str, t.length < 13 →
      rsplitLast '/' (lowerStr p.path) ≠ t := by
    intro t ht hEq
    rw [hEq] at hlen
    omega
  have hfeed : ∀ h ∈ FEED_HINTS, strEnds (lowerStr p.path) h = false := by
    intro h hh
    simp only [FEED_HINTS, List.mem_cons, List.not_mem_nil, or_false] at hh
    rcases hh with rfl | rfl
    all_goals
      simp only [strEnds, decide_eq_false_iff_not]
      intro hsuf
      exact hshort _ (by decide) (rsplitLast_of_suffix (by decide) hsuf)
  have hname1 : rsplitLast '/' (lowerStr p.path) ≠ str "robots.txt" :=
    hshort _ (by decide)
  have hname2 : rsplitLast '/' (lowerStr p.path) ≠ str "sitemap.xml" :=
    hshort _ (by decide)
  have hhint : ASSET_NAME_HINTS.any
      (fun h => strHas h (rsplitLast '/' (lowerStr p.path))) = true := by
    refine List.any_eq_true.mpr ⟨str "manifest.json", ?_, hm⟩
    simp [ASSET_NAME_HINTS]
  have hfeedB : FEED_HINTS.any (fun h => strEnds (lowerStr p.path) h) = false := by
    rw [List.any_eq_false]
    intro h hh
    simp [hfeed h hh]
  have hname1B : decide (rsplitLast '/' (lowerStr p.path) = str "robots.txt") = false := by
    simp [hname1]
  have hname2B : decide (rsplitLast '/' (lowerStr p.path) = str "sitemap.xml") = false := by
    simp [hname2]
  unfold classify_url
  rw [hp]
  simp only [hfeedB, hname1B, hname2B, hhint, Bool.or_self, Bool.false_eq_true,
    if_false, if_true, Bool.true_eq_false]

/-- C7 witness: the general part applied at a URL whose `.json`
extension and `/api/` path would otherwise classify it as `api`. -/
theorem classify_url_priority_witness :
    classify_url (str "https://example.com/api/manifest.json") = str "asset" :=
  classify_url_priority.2.2 (str "https://example.com/api/manifest.json")
    ⟨str "https", str "example.com", str "/api/manifest.json", [], []⟩
    (by decide) (by decide)

/-! ### Graph-builder theorems -/

/-- C8 counterexample: a discovery result whose only content is the
site-map entry `example.com → "/blog"` yields an empty node set — the
node `example.com/blog` the claim requires is absent. -/
theorem build_hierarchy_sitemap_cex :
    (build_hierarchy
      ⟨[], [(str "example.com", [str "/blog"])], [], [], [], [], [], [], [], [], []⟩).nodes
      = [] := by
  decide

/-- C8 (amended): `build_hierarchy` never reads `directories_by_host`:
its output is invariant under arbitrary changes to that field.  The
coarse site-map is merged into the node space (with the same
`host + '/' + seg` key construction) only by the external DB importer
`import_html_links.py`, not by the Graph Builder. -/
theorem build_hierarchy_sitemap_invariant (d : Discovered)
    (dbh : List (Str × List Str)) :
    build_hierarchy { d with directories_by_host := dbh } = build_hierarchy d := by
  cases d
  rfl

/-- Distinct `(source, target)` keys for C6. -/
def edgeKeyNe (a b : GEdge) : Prop := ¬(a.source = b.source ∧ a.target = b.target)

/-- Lemma: `add_edge` keeps the rtype invariant and key distinctness. -/
theorem add_edge_inv (s t : Str) {es : List GEdge}
    (hc : ∀ e ∈ es, e.rtype = str "contains") (hp : es.Pairwise edgeKeyNe) :
    (∀ e ∈ add_edge es s t, e.rtype = str "contains") ∧
      (add_edge es s t).Pairwise edgeKeyNe := by
  unfold add_edge
  split
  · exact ⟨hc, hp⟩
  · rename_i hg
    constructor
    · intro e he
      rcases List.mem_append.mp he with h | h
      · exact hc e h
      · simp only [List.mem_singleton] at h
        subst h
        rfl
    · rw [List.pairwise_append]
      refine ⟨hp, List.pairwise_singleton _ _, ?_⟩
      intro a ha b hb
      simp only [List.mem_singleton] at hb
      subst hb
      rintro ⟨h1, h2⟩
      exact hg (List.any_eq_true.mpr ⟨a, ha, by simp [h1, h2, hc a ha]⟩)

/-- Lemma: `walkSegs` keeps the edge invariants. -/
theorem walkSegs_edge_inv :
    ∀ (segs : List Str) (ns : List GNode) (es : List GEdge) (host prev cum : Str),
    (∀ e ∈ es, e.rtype = str "contains") → es.Pairwise edgeKeyNe →
    (∀ e ∈ (walkSegs ns es host prev cum segs).2, e.rtype = str "contains") ∧
      (walkSegs ns es host prev cum segs).2.Pairwise edgeKeyNe := by
  intro segs
  induction segs with
  | nil => intro ns es host prev cum hc hp; exact ⟨hc, hp⟩
  | cons seg rest ih =>
    intro ns es host prev cum hc hp
    have h' := add_edge_inv prev
      (host ++ (if cum = [] then '/' :: seg else cum ++ '/' :: seg)) hc hp
    exact ih _ _ host _ _ h'.1 h'.2

/-- Lemma: `processUrl` keeps the edge invariants. -/
theorem processUrl_edge_inv (raw : Str) {st : List GNode × List GEdge}
    (hc : ∀ e ∈ st.2, e.rtype = str "contains") (hp : st.2.Pairwise edgeKeyNe) :
    (∀ e ∈ (processUrl st raw).2, e.rtype = str "contains") ∧
      (processUrl st raw).2.Pairwise edgeKeyNe := by
  unfold processUrl
  cases hparse : pyUrlsplit raw with
  | none => exact ⟨hc, hp⟩
  | some p =>
    simp only
    split
    · exact ⟨hc, hp⟩
    · split
      · exact add_edge_inv _ _ hc hp
      · exact walkSegs_edge_inv _ _ _ _ _ _ hc hp

/-- C6: every `build_hierarchy` output has only `contains` edges and at
most one edge per ordered `(source, target)` pair, no matter how many
input URLs induce the same containment. -/
theorem build_hierarchy_edges_dedup (d : Discovered) :
    (∀ e ∈ (build_hierarchy d).relationships, e.rtype = str "contains") ∧
      (build_hierarchy d).relationships.Pairwise edgeKeyNe := by
  unfold build_hierarchy
  simp only
  generalize ((if d.pages ≠ [] then d.pages else d.urls) ++ d.api).filter
      (fun u => should_graph (classify_url u)) = urls
  generalize d.subdomains.foldl _ [] = seedNodes
  have : ∀ (L : List Str) (st : List GNode × List GEdge),
      (∀ e ∈ st.2, e.rtype = str "contains") → st.2.Pairwise edgeKeyNe →
      (∀ e ∈ (L.foldl processUrl st).2, e.rtype = str "contains") ∧
        (L.foldl processUrl st).2.Pairwise edgeKeyNe := by
    intro L
    induction L with
    | nil => intro st hc hp; exact ⟨hc, hp⟩
    | cons u rest ih =>
      intro st hc hp
      have h' := processUrl_edge_inv u hc hp
      exact ih _ h'.1 h'.2
  exact this urls (seedNodes, []) (by simp) (by simp)

/-- C6 witness: the deduplication theorem applied at a concrete
discovery result and a concrete edge of its output. -/
theorem build_hierarchy_edges_dedup_witness :
    (⟨str "a.example.com", str "a.example.com/blog", str "contains"⟩ : GEdge).rtype
      = str "contains" :=
  (build_hierarchy_edges_dedup
      ⟨[], [], [], [str "https://a.example.com/blog/post1.html"],
        [], [], [], [], [], [], []⟩).1
    ⟨str "a.example.com", str "a.example.com/blog", str "contains"⟩ (by decide)

/-- Node-value membership through `add_node`. -/
theorem mem_values_add_node {x v t : Str} {ns : List GNode} :
    x ∈ (add_node ns v t).map GNode.value ↔ x = v ∨ x ∈ ns.map GNode.value := by
  unfold add_node
  split
  · rename_i h
    simp only [List.any_eq_true, beq_iff_eq] at h
    obtain ⟨n, hn, hv⟩ := h
    constructor
    · tauto
    · rintro (rfl | hx)
      · exact List.mem_map.mpr ⟨n, hn, hv⟩
      · exact hx
  · simp only [List.map_append, List.mem_append, List.map_cons, List.map_nil,
      List.mem_singleton]
    tauto

/-- Edge membership through `add_edge`. -/
theorem mem_add_edge {e : GEdge} {es : List GEdge} {s t : Str} :
    e ∈ add_edge es s t ↔ e = ⟨s, t, str "contains"⟩ ∨ e ∈ es := by
  unfold add_edge
  split
  · rename_i h
    simp only [List.any_eq_true, Bool.and_eq_true, beq_iff_eq] at h
    obtain ⟨e', he', ⟨h1, h2⟩, h3⟩ := h
    constructor
    · tauto
    · rintro (rfl | hx)
      · have he : e' = ⟨s, t, str "contains"⟩ := by
          rw [← h1, ← h2, ← h3]
        rw [← he]
        exact he'
      · exact hx
  · simp only [List.mem_append, List.mem_singleton]
    tauto

/-- Node values produced by the segment walk. -/
theorem walkSegs_values :
    ∀ (segs : List Str) (ns : List GNode) (es : List GEdge) (host prev cum x : Str),
    (x ∈ (walkSegs ns es host prev cum segs).1.map GNode.value ↔
      x ∈ ns.map GNode.value ∨ x ∈ segValues host cum segs) := by
  intro segs
  induction segs with
  | nil => intro ns es host prev cum x; simp [walkSegs, segValues]
  | cons seg rest ih =>
    intro ns es host prev cum x
    unfold walkSegs segValues
    simp only
    rw [ih]
    rw [mem_values_add_node]
    simp only [List.mem_cons]
    tauto

/-- Edges produced by the segment walk. -/
theorem walkSegs_edges :
    ∀ (segs : List Str) (ns : List GNode) (es : List GEdge) (host prev cum : Str)
      (e : GEdge),
    (e ∈ (walkSegs ns es host prev cum segs).2 ↔
      e ∈ es ∨ e ∈ segEdges host prev cum segs) := by
  intro segs
  induction segs with
  | nil => intro ns es host prev cum e; simp [walkSegs, segEdges]
  | cons seg rest ih =>
    intro ns es host prev cum e
    unfold walkSegs segEdges
    simp only
    rw [ih]
    rw [mem_add_edge]
    simp only [List.mem_cons]
    tauto

/-- Node values of one `processUrl` step, independent of the state. -/
theorem processUrl_values {st : List GNode × List GEdge} {raw x : Str} :
    x ∈ (processUrl st raw).1.map GNode.value ↔
      x ∈ st.1.map GNode.value ∨ x ∈ urlNodeValues raw := by
  unfold processUrl urlNodeValues
  cases hparse : pyUrlsplit raw with
  | none => simp
  | some p =>
    simp only
    split
    · simp
    · split
      · rw [mem_values_add_node, mem_values_add_node]
        simp only [List.mem_cons, List.mem_singleton, List.not_mem_nil, or_false]
        tauto
      · rw [walkSegs_values, mem_values_add_node]
        simp only [List.mem_cons]
        tauto

/-- Edges of one `processUrl` step, independent of the state. -/
theorem processUrl_edges {st : List GNode × List GEdge} {raw : Str} {e : GEdge} :
    e ∈ (processUrl st raw).2 ↔ e ∈ st.2 ∨ e ∈ urlEdges raw := by
  unfold processUrl urlEdges
  cases hparse : pyUrlsplit raw with
  | none => simp
  | some p =>
    simp only
    split
    · simp
    · split
      · rw [mem_add_edge]
        simp only [List.mem_singleton, List.not_mem_nil, or_false]
        tauto
      · rw [walkSegs_edges]

/-- Node values of the URL fold: initial values plus the union over the
list, proving order-independence. -/
theorem foldl_processUrl_values :
    ∀ (L : List Str) (st : List GNode × List GEdge) (x : Str),
    x ∈ ((L.foldl processUrl st).1.map GNode.value) ↔
      x ∈ st.1.map GNode.value ∨ ∃ u ∈ L, x ∈ urlNodeValues u := by
  intro L
  induction L with
  | nil => intro st x; simp
  | cons u rest ih =>
    intro st x
    simp only [List.foldl_cons]
    rw [ih]
    rw [processUrl_values]
    simp only [List.mem_cons]
    constructor
    · rintro ((h | h) | ⟨v, hv, hx⟩)
      · exact Or.inl h
      · exact Or.inr ⟨u, Or.inl rfl, h⟩
      · exact Or.inr ⟨v, Or.inr hv, hx⟩
    · rintro (h | ⟨v, (rfl | hv), hx⟩)
      · exact Or.inl (Or.inl h)
      · exact Or.inl (Or.inr hx)
      · exact Or.inr ⟨v, hv, hx⟩

/-- Edges of the URL fold. -/
theorem foldl_processUrl_edges :
    ∀ (L : List Str) (st : List GNode × List GEdge) (e : GEdge),
    e ∈ (L.foldl processUrl st).2 ↔ e ∈ st.2 ∨ ∃ u ∈ L, e ∈ urlEdges u := by
  intro L
  induction L with
  | nil => intro st e; simp
  | cons u rest ih =>
    intro st e
    simp only [List.foldl_cons]
    rw [ih]
    rw [processUrl_edges]
    simp only [List.mem_cons]
    constructor
    · rintro ((h | h) | ⟨v, hv, hx⟩)
      · exact Or.inl h
      · exact Or.inr ⟨u, Or.inl rfl, h⟩
      · exact Or.inr ⟨v, Or.inr hv, hx⟩
    · rintro (h | ⟨v, (rfl | hv), hx⟩)
      · exact Or.inl (Or.inl h)
      · exact Or.inl (Or.inr hx)
      · exact Or.inr ⟨v, hv, hx⟩

/-- C2 counterexample: permuting the pages list changes a node's type
string.  With pages `[/x.html, /x.html/y]` the value `a.com/x.html` is
an `endpoint` node; with the permuted pages `[/x.html/y, /x.html]` the
same value is created as an intermediate `directory` node, so the node
sets (with types) differ. -/
theorem build_hierarchy_perm_type_cex :
    ([str "https://a.com/x.html", str "https://a.com/x.html/y"].Perm
      [str "https://a.com/x.html/y", str "https://a.com/x.html"]) ∧
    (⟨str "a.com/x.html", str "endpoint"⟩ : GNode) ∈
      (build_hierarchy ⟨[], [], [],
        [str "https://a.com/x.html", str "https://a.com/x.html/y"],
        [], [], [], [], [], [], []⟩).nodes ∧
    (⟨str "a.com/x.html", str "endpoint"⟩ : GNode) ∉
      (build_hierarchy ⟨[], [], [],
        [str "https://a.com/x.html/y", str "https://a.com/x.html"],
        [], [], [], [], [], [], []⟩).nodes ∧
    (⟨str "a.com/x.html", str "directory"⟩ : GNode) ∈
      (build_hierarchy ⟨[], [], [],
        [str "https://a.com/x.html/y", str "https://a.com/x.html"],
        [], [], [], [], [], [], []⟩).nodes := by
  decide

/-- C2 (amended): rebuilding from the same input is identical (the
builder is a pure function), and permuting the `pages`/`api` lists
preserves the node-value set and the full edge set; only a node's
*type* string can differ under permutation (first-write-wins in
`add_node`, shown by the counterexample). -/
theorem build_hierarchy_perm_invariant (d d' : Discovered)
    (hpages : d.pages.Perm d'.pages) (hapi : d.api.Perm d'.api)
    (hurls : d.urls = d'.urls) (hsubs : d.subdomains = d'.subdomains) :
    build_hierarchy d = build_hierarchy d ∧
    (∀ x, x ∈ (build_hierarchy d).nodes.map GNode.value ↔
          x ∈ (build_hierarchy d').nodes.map GNode.value) ∧
    (∀ e, e ∈ (build_hierarchy d).relationships ↔
          e ∈ (build_hierarchy d').relationships) := by
  have hlen := hpages.length_eq
  have hpagesnil : (d.pages = []) ↔ (d'.pages = []) := by
    rw [← List.length_eq_zero, ← List.length_eq_zero, hlen]
  have hpu : (if d.pages ≠ [] then d.pages else d.urls).Perm
      (if d'.pages ≠ [] then d'.pages else d'.urls) := by
    by_cases h : d.pages = []
    · have h' : d'.pages = [] := hpagesnil.mp h
      simp only [h, h', ne_eq, not_true_eq_false, if_false, hurls]
      exact List.Perm.refl _
    · have h' : d'.pages ≠ [] := fun hh => h (hpagesnil.mpr hh)
      simp only [ne_eq, h, h', not_false_eq_true, if_true]
      exact hpages
  have hu : (((if d.pages ≠ [] then d.pages else d.urls) ++ d.api).filter
        (fun u => should_graph (classify_url u))).Perm
      (((if d'.pages ≠ [] then d'.pages else d'.urls) ++ d'.api).filter
        (fun u => should_graph (classify_url u))) :=
    (hpu.append hapi).filter _
  refine ⟨rfl, ?_, ?_⟩
  · intro x
    simp only [build_hierarchy]
    rw [foldl_processUrl_values, foldl_processUrl_values, hsubs]
    constructor
    · rintro (h | ⟨u, hmem, hx⟩)
      · exact Or.inl h
      · exact Or.inr ⟨u, hu.mem_iff.mp hmem, hx⟩
    · rintro (h | ⟨u, hmem, hx⟩)
      · exact Or.inl h
      · exact Or.inr ⟨u, hu.mem_iff.mpr hmem, hx⟩
  · intro e
    simp only [build_hierarchy]
    rw [foldl_processUrl_edges, foldl_processUrl_edges]
    constructor
    · rintro (h | ⟨u, hmem, hx⟩)
      · exact Or.inl h
      · exact Or.inr ⟨u, hu.mem_iff.mp hmem, hx⟩
    · rintro (h | ⟨u, hmem, hx⟩)
      · exact Or.inl h
      · exact Or.inr ⟨u, hu.mem_iff.mpr hmem, hx⟩

/-- C2 witness: the amended theorem applied to a concrete permuted
pair of discovery results. -/
theorem build_hierarchy_perm_invariant_witness :
    (str "a.com/x.html") ∈
      (build_hierarchy ⟨[], [], [],
        [str "https://a.com/x.html/y", str "https://a.com/x.html"],
        [], [], [], [], [], [], []⟩).nodes.map GNode.value :=
  ((build_hierarchy_perm_invariant
      ⟨[], [], [], [str "https://a.com/x.html", str "https://a.com/x.html/y"],
        [], [], [], [], [], [], []⟩
      ⟨[], [], [], [str "https://a.com/x.html/y", str "https://a.com/x.html"],
        [], [], [], [], [], [], []⟩
      (by decide) (by decide) rfl rfl).2.1 (str "a.com/x.html")).mp (by decide)

/-! ### Crawl-frontier lemmas -/

/-- Membership through `pyInsert`. -/
theorem mem_pyInsert {u x : Str} {l : List Str} :
    u ∈ pyInsert x l ↔ u ∈ l ∨ u = x := by
  unfold pyInsert
  split
  · rename_i h
    rw [List.elem_iff] at h
    constructor
    · tauto
    · rintro (hx | rfl)
      · exact hx
      · exact h
  · simp only [List.mem_append, List.mem_singleton]

/-- Membership through `pyUnion`. -/
theorem mem_pyUnion {u : Str} {a b : List Str} :
    u ∈ pyUnion a b ↔ u ∈ a ∨ u ∈ b := by
  unfold pyUnion
  simp only [List.mem_append, List.mem_filter, Bool.not_eq_true']
  constructor
  · rintro (h | ⟨h, _⟩)
    · exact Or.inl h
    · exact Or.inr h
  · by_cases ha : u ∈ a
    · intro _
      exact Or.inl ha
    · rintro (h | h)
      · exact absurd h ha
      · refine Or.inr ⟨h, ?_⟩
        cases hce : a.contains u
        · rfl
        · exact absurd (List.elem_iff.mp hce) ha

/-- Membership through `insertSorted`. -/
theorem mem_insertSorted {u x : Str} {l : List Str} :
    u ∈ insertSorted x l ↔ u = x ∨ u ∈ l := by
  induction l with
  | nil => simp [insertSorted]
  | cons y ys ih =>
    unfold insertSorted
    split
    · simp [List.mem_cons]
    · simp only [List.mem_cons, ih]
      tauto

/-- Membership through `pySorted`. -/
theorem mem_pySorted {u : Str} {l : List Str} : u ∈ pySorted l ↔ u ∈ l := by
  induction l with
  | nil => simp [pySorted]
  | cons y ys ih =>
    unfold pySorted at ih ⊢
    simp only [List.foldr_cons, mem_insertSorted, ih, List.mem_cons]

/-- Membership through `sortedSet`. -/
theorem mem_sortedSet {u : Str} {l : List Str} : u ∈ sortedSet l ↔ u ∈ l := by
  unfold sortedSet
  rw [mem_pySorted, List.mem_dedup]

/-- Keys reachable through `dirsInsert`. -/
theorem dirsInsert_keys {hostK sg : Str} :
    ∀ (d : List (Str × List Str)) (kv : Str × List Str),
    kv ∈ dirsInsert hostK sg d → kv.1 = hostK ∨ kv.1 ∈ d.map Prod.fst := by
  intro d
  induction d with
  | nil =>
    intro kv hkv
    simp only [dirsInsert, List.mem_singleton] at hkv
    subst hkv
    exact Or.inl rfl
  | cons e rest ih =>
    intro kv hkv
    rcases e with ⟨k, vs⟩
    unfold dirsInsert at hkv
    split at hkv
    · rename_i heq
      rcases List.mem_cons.mp hkv with rfl | hkv
      · exact Or.inl heq
      · refine Or.inr ?_
        simp only [List.map_cons, List.mem_cons]
        exact Or.inr (List.mem_map.mpr ⟨kv, hkv, rfl⟩)
    · rcases List.mem_cons.mp hkv with rfl | hkv
      · exact Or.inr (by simp)
      · rcases ih kv hkv with h1 | h1
        · exact Or.inl h1
        · refine Or.inr ?_
          simp only [List.map_cons, List.mem_cons]
          exact Or.inr h1

/-- Lemma: `recordLink` changes only the four classification buckets. -/
theorem recordLink_fields (link kind : Str) (st : CrawlState) :
    (recordLink link kind st).visited = st.visited ∧
    (recordLink link kind st).queue = st.queue ∧
    (recordLink link kind st).discovered_urls = st.discovered_urls ∧
    (recordLink link kind st).routes = st.routes ∧
    (recordLink link kind st).js_files = st.js_files ∧
    (recordLink link kind st).query_urls = st.query_urls ∧
    (recordLink link kind st).network_requests = st.network_requests ∧
    (recordLink link kind st).subdomains = st.subdomains ∧
    (recordLink link kind st).dirs = st.dirs ∧
    (recordLink link kind st).everEnqueued = st.everEnqueued ∧
    (recordLink link kind st).fetched = st.fetched := by
  unfold recordLink
  repeat' split
  all_goals simp

/-- New elements of the classification buckets through `recordLink`. -/
theorem recordLink_buckets (link kind : Str) (st : CrawlState) :
    (∀ u ∈ (recordLink link kind st).assets, u ∈ st.assets ∨ u = link) ∧
    (∀ u ∈ (recordLink link kind st).feeds, u ∈ st.feeds ∨ u = link) ∧
    (∀ u ∈ (recordLink link kind st).api, u ∈ st.api ∨ u = link) ∧
    (∀ u ∈ (recordLink link kind st).pages, u ∈ st.pages ∨ u = link) := by
  unfold recordLink
  repeat' split
  all_goals simp_all [mem_pyInsert]

/-- Lemma: `recordHostDir` changes only `subdomains` and `dirs`. -/
theorem recordHostDir_fields (apex host kind ppath : Str) (st : CrawlState) :
    (recordHostDir apex host kind ppath st).visited = st.visited ∧
    (recordHostDir apex host kind ppath st).queue = st.queue ∧
    (recordHostDir apex host kind ppath st).discovered_urls = st.discovered_urls ∧
    (recordHostDir apex host kind ppath st).pages = st.pages ∧
    (recordHostDir apex host kind ppath st).api = st.api ∧
    (recordHostDir apex host kind ppath st).feeds = st.feeds ∧
    (recordHostDir apex host kind ppath st).assets = st.assets ∧
    (recordHostDir apex host kind ppath st).routes = st.routes ∧
    (recordHostDir apex host kind ppath st).js_files = st.js_files ∧
    (recordHostDir apex host kind ppath st).query_urls = st.query_urls ∧
    (recordHostDir apex host kind ppath st).network_requests = st.network_requests ∧
    (recordHostDir apex host kind ppath st).everEnqueued = st.everEnqueued ∧
    (recordHostDir apex host kind ppath st).fetched = st.fetched := by
  unfold recordHostDir
  repeat' split
  all_goals simp

/-- New elements of `subdomains` and `dirs` through `recordHostDir`. -/
theorem recordHostDir_buckets (apex host kind ppath : Str) (st : CrawlState) :
    (∀ h ∈ (recordHostDir apex host kind ppath st).subdomains,
      h ∈ st.subdomains ∨
        (h = host ∧ strEnds host ('.' :: apex) = true ∧ host ≠ apex)) ∧
    (∀ kv ∈ (recordHostDir apex host kind ppath st).dirs,
      kv.1 ∈ st.dirs.map Prod.fst ∨ (kv.1 = host ∧ host = apex)) := by
  unfold recordHostDir
  repeat' split
  · rename_i hg
    simp only [Bool.and_eq_true, decide_eq_true_eq] at hg
    constructor
    · intro h hh
      simp only at hh
      rw [mem_pyInsert] at hh
      rcases hh with hh | rfl
      · exact Or.inl hh
      · exact Or.inr ⟨rfl, hg.1, hg.2⟩
    · intro kv hkv
      simp only at hkv
      exact Or.inl (List.mem_map.mpr ⟨kv, hkv, rfl⟩)
  all_goals
    refine ⟨fun h hh => Or.inl hh, fun kv hkv => ?_⟩
  all_goals simp only at hkv
  all_goals
    first
    | exact Or.inl (List.mem_map.mpr ⟨kv, hkv, rfl⟩)
    | (have hapex : host = apex := by assumption
       rcases dirsInsert_keys _ _ hkv with h1 | h1
       · exact Or.inr ⟨h1, hapex⟩
       · exact Or.inl h1)

/-- Lemma: `scheduleLink` changes only `queue`/`everEnqueued`, appending at
most `(link, depth+1)` under the depth/scope/visited guards. -/
theorem scheduleLink_spec (apex : Str) (mD d : Nat) (host link : Str) (st : CrawlState) :
    (scheduleLink apex mD d host link st).visited = st.visited ∧
    (scheduleLink apex mD d host link st).discovered_urls = st.discovered_urls ∧
    (scheduleLink apex mD d host link st).pages = st.pages ∧
    (scheduleLink apex mD d host link st).api = st.api ∧
    (scheduleLink apex mD d host link st).feeds = st.feeds ∧
    (scheduleLink apex mD d host link st).assets = st.assets ∧
    (scheduleLink apex mD d host link st).routes = st.routes ∧
    (scheduleLink apex mD d host link st).js_files = st.js_files ∧
    (scheduleLink apex mD d host link st).query_urls = st.query_urls ∧
    (scheduleLink apex mD d host link st).network_requests = st.network_requests ∧
    (scheduleLink apex mD d host link st).subdomains = st.subdomains ∧
    (scheduleLink apex mD d host link st).dirs = st.dirs ∧
    (scheduleLink apex mD d host link st).fetched = st.fetched ∧
    (∀ e ∈ (scheduleLink apex mD d host link st).queue,
      e ∈ st.queue ∨ (e = (link, d + 1) ∧ d < mD ∧
        (host = apex ∨ strEnds host ('.' :: apex) = true))) ∧
    (∀ e ∈ (scheduleLink apex mD d host link st).everEnqueued,
      e ∈ st.everEnqueued ∨ (e = (link, d + 1) ∧ d < mD ∧
        (host = apex ∨ strEnds host ('.' :: apex) = true))) := by
  unfold scheduleLink
  repeat' split
  · rename_i hg _
    simp only [Bool.and_eq_true, Bool.or_eq_true, decide_eq_true_eq] at hg
    refine ⟨rfl, rfl, rfl, rfl, rfl, rfl, rfl, rfl, rfl, rfl, rfl, rfl, rfl, ?_, ?_⟩
    · intro e he
      simp only at he
      rcases List.mem_append.mp he with hmem | hmem
      · exact Or.inl hmem
      · simp only [List.mem_singleton] at hmem
        exact Or.inr ⟨hmem, hg.1, hg.2⟩
    · intro e he
      simp only at he
      rcases List.mem_append.mp he with hmem | hmem
      · exact Or.inl hmem
      · simp only [List.mem_singleton] at hmem
        exact Or.inr ⟨hmem, hg.1, hg.2⟩
  all_goals
    exact ⟨rfl, rfl, rfl, rfl, rfl, rfl, rfl, rfl, rfl, rfl, rfl, rfl, rfl,
      fun e he => Or.inl he, fun e he => Or.inl he⟩

/-- Combined specification of one link-loop iteration: fields the loop
never touches, scope guarantees for every recorded or scheduled
element. -/
theorem processLink_spec (apex : Str) (mD d : Nat) (st : CrawlState) (link : Str) :
    (processLink apex mD d st link).visited = st.visited ∧
    (processLink apex mD d st link).discovered_urls = st.discovered_urls ∧
    (processLink apex mD d st link).routes = st.routes ∧
    (processLink apex mD d st link).js_files = st.js_files ∧
    (processLink apex mD d st link).query_urls = st.query_urls ∧
    (processLink apex mD d st link).network_requests = st.network_requests ∧
    (processLink apex mD d st link).fetched = st.fetched ∧
    (∀ u ∈ (processLink apex mD d st link).assets,
      u ∈ st.assets ∨ (u = link ∧ linkInScope apex link = true)) ∧
    (∀ u ∈ (processLink apex mD d st link).feeds,
      u ∈ st.feeds ∨ (u = link ∧ linkInScope apex link = true)) ∧
    (∀ u ∈ (processLink apex mD d st link).api,
      u ∈ st.api ∨ (u = link ∧ linkInScope apex link = true)) ∧
    (∀ u ∈ (processLink apex mD d st link).pages, u ∈ st.pages ∨ u = link) ∧
    (∀ h ∈ (processLink apex mD d st link).subdomains,
      h ∈ st.subdomains ∨ (strEnds h ('.' :: apex) = true ∧ h ≠ apex)) ∧
    (∀ kv ∈ (processLink apex mD d st link).dirs,
      kv.1 ∈ st.dirs.map Prod.fst ∨ kv.1 = apex) ∧
    (∀ e ∈ (processLink apex mD d st link).queue,
      e ∈ st.queue ∨ (e = (link, d + 1) ∧ d < mD ∧ linkInScope apex link = true)) ∧
    (∀ e ∈ (processLink apex mD d st link).everEnqueued,
      e ∈ st.everEnqueued ∨
        (e = (link, d + 1) ∧ d < mD ∧ linkInScope apex link = true)) := by
  unfold processLink
  cases hp : pyUrlsplit link with
  | none =>
    exact ⟨rfl, rfl, rfl, rfl, rfl, rfl, rfl,
      fun u hu => Or.inl hu, fun u hu => Or.inl hu, fun u hu => Or.inl hu,
      fun u hu => Or.inl hu, fun h hh => Or.inl hh, fun kv hkv =>
        Or.inl (List.mem_map.mpr ⟨kv, hkv, rfl⟩),
      fun e he => Or.inl he, fun e he => Or.inl he⟩
  | some p =>
    simp only
    split
    · exact ⟨rfl, rfl, rfl, rfl, rfl, rfl, rfl,
        fun u hu => Or.inl hu, fun u hu => Or.inl hu, fun u hu => Or.inl hu,
        fun u hu => Or.inl hu, fun h hh => Or.inl hh, fun kv hkv =>
          Or.inl (List.mem_map.mpr ⟨kv, hkv, rfl⟩),
        fun e he => Or.inl he, fun e he => Or.inl he⟩
    · rename_i hsneg
      split
      · exact ⟨rfl, rfl, rfl, rfl, rfl, rfl, rfl,
          fun u hu => Or.inl hu, fun u hu => Or.inl hu, fun u hu => Or.inl hu,
          fun u hu => Or.inl hu, fun h hh => Or.inl hh, fun kv hkv =>
            Or.inl (List.mem_map.mpr ⟨kv, hkv, rfl⟩),
          fun e he => Or.inl he, fun e he => Or.inl he⟩
      · rename_i hhost
        split
        · exact ⟨rfl, rfl, rfl, rfl, rfl, rfl, rfl,
            fun u hu => Or.inl hu, fun u hu => Or.inl hu, fun u hu => Or.inl hu,
            fun u hu => Or.inl hu, fun h hh => Or.inl hh, fun kv hkv =>
              Or.inl (List.mem_map.mpr ⟨kv, hkv, rfl⟩),
            fun e he => Or.inl he, fun e he => Or.inl he⟩
        · rename_i hoos
          have hsb : strStarts p.scheme (str "http") = true := by
            revert hsneg
            cases strStarts p.scheme (str "http") <;> simp
          have hscope : lowerStr (pyHostname p.netloc) = apex ∨
              strEnds (lowerStr (pyHostname p.netloc)) ('.' :: apex) = true := by
            by_cases he : lowerStr (pyHostname p.netloc) = apex
            · exact Or.inl he
            · right
              cases hst : strEnds (lowerStr (pyHostname p.netloc)) ('.' :: apex)
              · exact absurd (by simp [he, hst]) hoos
              · rfl
          have hlis : linkInScope apex link = true := by
            unfold linkInScope
            rw [hp]
            simp only [Bool.and_eq_true, Bool.or_eq_true, decide_eq_true_eq,
              ne_eq, decide_not, Bool.not_eq_true', decide_eq_false_iff_not]
            exact ⟨hsb, hhost, hscope⟩
          obtain ⟨f1, f2, f3, f4, f5, f6, f7, f8, f9, f10, f11⟩ :=
            recordLink_fields link (classify_url link) st
          obtain ⟨b1, b2, b3, b4⟩ := recordLink_buckets link (classify_url link) st
          obtain ⟨g1, g2, g3, g4, g5, g6, g7, g8, g9, g10, g11, g12, g13⟩ :=
            recordHostDir_fields apex (lowerStr (pyHostname p.netloc))
              (classify_url link) p.path (recordLink link (classify_url link) st)
          obtain ⟨c1, c2⟩ :=
            recordHostDir_buckets apex (lowerStr (pyHostname p.netloc))
              (classify_url link) p.path (recordLink link (classify_url link) st)
          obtain ⟨s1, s2, s3, s4, s5, s6, s7, s8, s9, s10, s11, s12, s13, sq, se⟩ :=
            scheduleLink_spec apex mD d (lowerStr (pyHostname p.netloc)) link
              (recordHostDir apex (lowerStr (pyHostname p.netloc))
                (classify_url link) p.path (recordLink link (classify_url link) st))
          refine ⟨?_, ?_, ?_, ?_, ?_, ?_, ?_, ?_, ?_, ?_, ?_, ?_, ?_, ?_, ?_⟩
          · rw [s1, g1, f1]
          · rw [s2, g3, f3]
          · rw [s7, g8, f4]
          · rw [s8, g9, f5]
          · rw [s9, g10, f6]
          · rw [s10, g11, f7]
          · rw [s13, g13, f11]
          · intro u hu
            rw [s6, g7] at hu
            rcases b1 u hu with hmem | rfl
            · exact Or.inl hmem
            · exact Or.inr ⟨rfl, hlis⟩
          · intro u hu
            rw [s5, g6] at hu
            rcases b2 u hu with hmem | rfl
            · exact Or.inl hmem
            · exact Or.inr ⟨rfl, hlis⟩
          · intro u hu
            rw [s4, g5] at hu
            rcases b3 u hu with hmem | rfl
            · exact Or.inl hmem
            · exact Or.inr ⟨rfl, hlis⟩
          · intro u hu
            rw [s3, g4] at hu
            exact b4 u hu
          · intro h hh
            rw [s11] at hh
            rcases c1 h hh with hmem | ⟨rfl, hend, hne⟩
            · rw [f8] at hmem
              exact Or.inl hmem
            · exact Or.inr ⟨hend, hne⟩
          · intro kv hkv
            rw [s12] at hkv
            rcases c2 kv hkv with hmem | ⟨hkv1, hkmain⟩
            · rw [f9] at hmem
              exact Or.inl hmem
            · exact Or.inr (hkv1.trans hkmain)
          · intro e he
            rcases sq e he with hmem | ⟨he1, he2, _⟩
            · rw [g2, f2] at hmem
              exact Or.inl hmem
            · exact Or.inr ⟨he1, he2, hlis⟩
          · intro e he
            rcases se e he with hmem | ⟨he1, he2, _⟩
            · rw [g12, f10] at hmem
              exact Or.inl hmem
            · exact Or.inr ⟨he1, he2, hlis⟩

/-- The inductive invariant of a crawl run: distinct visited URLs,
empty `routes` (script analysis is off), every queue/ghost entry is a
seed or an in-scope link within the depth bound, every fetched entry
respects the depth bound, and every recorded asset/feed/api/subdomain/
directory entry is in scope. -/
def CrawlInv (apex : Str) (mD : Nat) (seeds : List (Str × Nat)) (st : CrawlState) :
    Prop :=
  st.visited.Nodup ∧
  st.routes = [] ∧
  (∀ e ∈ st.queue, (e ∈ seeds ∨ linkInScope apex e.1 = true) ∧ e.2 ≤ mD) ∧
  (∀ e ∈ st.everEnqueued, (e ∈ seeds ∨ linkInScope apex e.1 = true) ∧ e.2 ≤ mD) ∧
  (∀ e ∈ st.fetched, e.2 ≤ mD) ∧
  (∀ u ∈ st.assets, linkInScope apex u = true) ∧
  (∀ u ∈ st.feeds, linkInScope apex u = true) ∧
  (∀ u ∈ st.api, linkInScope apex u = true) ∧
  (∀ h ∈ st.subdomains, strEnds h ('.' :: apex) = true ∧ h ≠ apex) ∧
  (∀ kv ∈ st.dirs, kv.1 = apex)

/-- Transfer of the invariant along field equalities. -/
theorem CrawlInv_congr {apex : Str} {mD : Nat} {seeds : List (Str × Nat)}
    {st st' : CrawlState} (h : CrawlInv apex mD seeds st)
    (hv : st'.visited = st.visited) (hr : st'.routes = st.routes)
    (hq : st'.queue = st.queue) (he : st'.everEnqueued = st.everEnqueued)
    (hf : st'.fetched = st.fetched) (ha : st'.assets = st.assets)
    (hfe : st'.feeds = st.feeds) (hap : st'.api = st.api)
    (hs : st'.subdomains = st.subdomains) (hd : st'.dirs = st.dirs) :
    CrawlInv apex mD seeds st' := by
  unfold CrawlInv at h ⊢
  rw [hv, hr, hq, he, hf, ha, hfe, hap, hs, hd]
  exact h

/-- One link-loop iteration preserves the invariant. -/
theorem processLink_inv {apex : Str} {mD d : Nat} {seeds : List (Str × Nat)}
    {st : CrawlState} {link : Str} (h : CrawlInv apex mD seeds st) :
    CrawlInv apex mD seeds (processLink apex mD d st link) := by
  obtain ⟨hvis, hrts, hq, he, hf, has, hfe, hap, hsub, hdir⟩ := h
  obtain ⟨f1, f2, f3, _, _, _, f7, ba, bf, bapi, _, bs, bd, bq, be⟩ :=
    processLink_spec apex mD d st link
  refine ⟨by rw [f1]; exact hvis, by rw [f3]; exact hrts, ?_, ?_, ?_, ?_, ?_, ?_, ?_, ?_⟩
  · intro e hemem
    rcases bq e hemem with hmem | ⟨rfl, hlt, hsc⟩
    · exact hq e hmem
    · exact ⟨Or.inr hsc, by omega⟩
  · intro e hemem
    rcases be e hemem with hmem | ⟨rfl, hlt, hsc⟩
    · exact he e hmem
    · exact ⟨Or.inr hsc, by omega⟩
  · intro e hemem
    rw [f7] at hemem
    exact hf e hemem
  · intro u hu
    rcases ba u hu with hmem | ⟨rfl, hsc⟩
    · exact has u hmem
    · exact hsc
  · intro u hu
    rcases bf u hu with hmem | ⟨rfl, hsc⟩
    · exact hfe u hmem
    · exact hsc
  · intro u hu
    rcases bapi u hu with hmem | ⟨rfl, hsc⟩
    · exact hap u hmem
    · exact hsc
  · intro x hx
    rcases bs x hx with hmem | hok
    · exact hsub x hmem
    · exact hok
  · intro kv hkv
    rcases bd kv hkv with hmem | hok
    · obtain ⟨kv', hkv', hfst⟩ := List.mem_map.mp hmem
      rw [← hfst]
      exact hdir kv' hkv'
    · exact hok

/-- The link fold preserves the invariant and the visited set. -/
theorem linksFold_inv {apex : Str} {mD d : Nat} {seeds : List (Str × Nat)} :
    ∀ (links : List Str) (st : CrawlState), CrawlInv apex mD seeds st →
    CrawlInv apex mD seeds (links.foldl (processLink apex mD d) st) ∧
    (links.foldl (processLink apex mD d) st).visited = st.visited := by
  intro links
  induction links with
  | nil => exact fun st h => ⟨h, rfl⟩
  | cons l rest ih =>
    intro st h
    simp only [List.foldl_cons]
    obtain ⟨hinv, hvis⟩ := ih _ (processLink_inv h)
    exact ⟨hinv, by rw [hvis, (processLink_spec apex mD d st l).1]⟩

/-- Lemma: `addQueryUrls` changes only `query_urls` and `pages`. -/
theorem addQueryUrls_fields :
    ∀ (qurls : List Str) (st : CrawlState),
    (addQueryUrls st qurls).visited = st.visited ∧
    (addQueryUrls st qurls).queue = st.queue ∧
    (addQueryUrls st qurls).discovered_urls = st.discovered_urls ∧
    (addQueryUrls st qurls).api = st.api ∧
    (addQueryUrls st qurls).feeds = st.feeds ∧
    (addQueryUrls st qurls).assets = st.assets ∧
    (addQueryUrls st qurls).routes = st.routes ∧
    (addQueryUrls st qurls).js_files = st.js_files ∧
    (addQueryUrls st qurls).network_requests = st.network_requests ∧
    (addQueryUrls st qurls).subdomains = st.subdomains ∧
    (addQueryUrls st qurls).dirs = st.dirs ∧
    (addQueryUrls st qurls).everEnqueued = st.everEnqueued ∧
    (addQueryUrls st qurls).fetched = st.fetched := by
  intro qurls
  induction qurls with
  | nil =>
    exact fun st => ⟨rfl, rfl, rfl, rfl, rfl, rfl, rfl, rfl, rfl, rfl, rfl, rfl, rfl⟩
  | cons q rest ih =>
    intro st
    exact ih _

/-- Lemma: `addSearchTargets` changes only `pages`. -/
theorem addSearchTargets_fields (finalUrl : Str) :
    ∀ (targets : List Str) (st : CrawlState),
    (addSearchTargets finalUrl st targets).visited = st.visited ∧
    (addSearchTargets finalUrl st targets).queue = st.queue ∧
    (addSearchTargets finalUrl st targets).discovered_urls = st.discovered_urls ∧
    (addSearchTargets finalUrl st targets).api = st.api ∧
    (addSearchTargets finalUrl st targets).feeds = st.feeds ∧
    (addSearchTargets finalUrl st targets).assets = st.assets ∧
    (addSearchTargets finalUrl st targets).routes = st.routes ∧
    (addSearchTargets finalUrl st targets).js_files = st.js_files ∧
    (addSearchTargets finalUrl st targets).network_requests = st.network_requests ∧
    (addSearchTargets finalUrl st targets).subdomains = st.subdomains ∧
    (addSearchTargets finalUrl st targets).dirs = st.dirs ∧
    (addSearchTargets finalUrl st targets).everEnqueued = st.everEnqueued ∧
    (addSearchTargets finalUrl st targets).fetched = st.fetched := by
  intro targets
  induction targets with
  | nil =>
    exact fun st => ⟨rfl, rfl, rfl, rfl, rfl, rfl, rfl, rfl, rfl, rfl, rfl, rfl, rfl⟩
  | cons t rest ih =>
    intro st
    unfold addSearchTargets
    simp only [List.foldl_cons]
    split
    · exact ih _
    · exact ih _

/-- Marking a URL visited preserves the invariant and grows `visited`
by exactly one. -/
theorem markVisited_inv {apex : Str} {mD depth : Nat} {seeds : List (Str × Nat)}
    {st : CrawlState} {url : Str} (hd : depth ≤ mD) (hnotmem : url ∉ st.visited)
    (h : CrawlInv apex mD seeds st) :
    CrawlInv apex mD seeds
      { st with visited := st.visited ++ [url],
                discovered_urls := pyInsert url st.discovered_urls,
                fetched := st.fetched ++ [(url, depth)] } := by
  obtain ⟨hvis, hrts, hq, he, hf, has, hfe, hap, hsub, hdir⟩ := h
  refine ⟨?_, hrts, hq, he, ?_, has, hfe, hap, hsub, hdir⟩
  · rw [List.nodup_append]
    exact ⟨hvis, List.nodup_singleton url,
      fun a ha hb => hnotmem (by simpa using (List.mem_singleton.mp hb ▸ ha))⟩
  · intro e hemem
    rcases List.mem_append.mp hemem with hm | hm
    · exact hf e hm
    · rw [List.mem_singleton.mp hm]
      exact hd

/-- One loop iteration preserves the invariant; `visited` grows by at
most one element. -/
theorem processEntry_inv {cfg : CrawlCfg} {seeds : List (Str × Nat)}
    {st : CrawlState} {url : Str} {depth : Nat} (hd : depth ≤ cfg.maxDepth)
    (h : CrawlInv cfg.apex cfg.maxDepth seeds st) :
    CrawlInv cfg.apex cfg.maxDepth seeds (processEntry cfg st url depth) ∧
    (processEntry cfg st url depth).visited.length ≤ st.visited.length + 1 := by
  unfold processEntry
  split
  · exact ⟨h, by omega⟩
  · rename_i hnot
    have hnotmem : url ∉ st.visited := fun hmem => hnot (List.elem_iff.mpr hmem)
    have hinv1 := markVisited_inv hd hnotmem h
    cases hfr : cfg.fetch url with
    | none => exact ⟨hinv1, by simp⟩
    | some r =>
      simp only
      split
      · exact ⟨hinv1, by simp⟩
      · split
        · exact ⟨hinv1, by simp⟩
        · have hinv2 : CrawlInv cfg.apex cfg.maxDepth seeds
              { st with visited := st.visited ++ [url],
                        discovered_urls := pyInsert url st.discovered_urls,
                        fetched := st.fetched ++ [(url, depth)],
                        pages := pyInsert r.finalUrl st.pages } :=
            CrawlInv_congr hinv1 rfl rfl rfl rfl rfl rfl rfl rfl rfl rfl
          have hinv3 : ∀ st2 : CrawlState, CrawlInv cfg.apex cfg.maxDepth seeds st2 →
              CrawlInv cfg.apex cfg.maxDepth seeds
                (if cfg.seedQueries ≠ [] then
                  addQueryUrls st2 (build_query_urls r.finalUrl cfg.seedQueries)
                 else st2) ∧
              (if cfg.seedQueries ≠ [] then
                  addQueryUrls st2 (build_query_urls r.finalUrl cfg.seedQueries)
                 else st2).visited = st2.visited := by
            intro st2 h2
            split
            · obtain ⟨e1, e2, e3, e4, e5, e6, e7, e8, e9, e10, e11, e12, e13⟩ :=
                addQueryUrls_fields (build_query_urls r.finalUrl cfg.seedQueries) st2
              exact ⟨CrawlInv_congr h2 e1 e7 e2 e12 e13 e6 e5 e4 e10 e11, e1⟩
            · exact ⟨h2, rfl⟩
          obtain ⟨hinv3', hvis3⟩ := hinv3 _ hinv2
          obtain ⟨t1, t2, t3, t4, t5, t6, t7, t8, t9, t10, t11, t12, t13⟩ :=
            addSearchTargets_fields r.finalUrl r.searchTargets _
          have hinv4 := CrawlInv_congr hinv3' t1 t7 t2 t12 t13 t6 t5 t4 t10 t11
          obtain ⟨hinv5, hvis5⟩ := linksFold_inv r.links _ hinv4
          refine ⟨hinv5, ?_⟩
          rw [hvis5, t1, hvis3]
          simp

/-- The crawl loop preserves the invariant and the page budget. -/
theorem crawlLoop_inv (cfg : CrawlCfg) (seeds : List (Str × Nat)) :
    ∀ (fuel : Nat) (st : CrawlState),
    CrawlInv cfg.apex cfg.maxDepth seeds st →
    st.visited.length ≤ cfg.maxPages →
    CrawlInv cfg.apex cfg.maxDepth seeds (crawlLoop cfg fuel st) ∧
      (crawlLoop cfg fuel st).visited.length ≤ cfg.maxPages := by
  intro fuel
  induction fuel with
  | zero => exact fun st h hl => ⟨h, hl⟩
  | succ n ih =>
    intro st h hl
    unfold crawlLoop
    split
    · exact ⟨h, hl⟩
    · rename_i url depth rest hq
      split
      · rename_i hlen
        have hqhead := h.2.2.1 (url, depth) (by rw [hq]; exact List.mem_cons_self _ _)
        have hrest : CrawlInv cfg.apex cfg.maxDepth seeds { st with queue := rest } := by
          obtain ⟨hvis, hrts, hqi, he, hf, has, hfe, hap, hsub, hdir⟩ := h
          exact ⟨hvis, hrts,
            fun e hemem => hqi e (by rw [hq]; exact List.mem_cons_of_mem _ hemem),
            he, hf, has, hfe, hap, hsub, hdir⟩
        have hdep : depth ≤ cfg.maxDepth := hqhead.2
        obtain ⟨hinv', hlen'⟩ := processEntry_inv hdep hrest
        refine ih _ hinv' ?_
        have h0 : ({ st with queue := rest } : CrawlState).visited.length
            = st.visited.length := rfl
        omega
      · exact ⟨h, hl⟩

/-- The initial state satisfies the invariant. -/
theorem initState_inv (apex : Str) (mD : Nat) (startUrls : List Str) :
    CrawlInv apex mD (startUrls.map ((·, 0))) (initState startUrls) := by
  refine ⟨List.nodup_nil, rfl, ?_, ?_, ?_, ?_, ?_, ?_, ?_, ?_⟩
  · intro e hemem
    refine ⟨Or.inl hemem, ?_⟩
    obtain ⟨u, _, rfl⟩ := List.mem_map.mp hemem
    exact Nat.zero_le mD
  · intro e hemem
    refine ⟨Or.inl hemem, ?_⟩
    obtain ⟨u, _, rfl⟩ := List.mem_map.mp hemem
    exact Nat.zero_le mD
  all_goals intro e hemem; exact absurd hemem (List.not_mem_nil e)

/-- C5: the crawl respects its budgets — the visited set stays
duplicate-free and never exceeds `max_pages` (so the returned
`pages_crawled` is at most `max_pages`), and every dequeued entry that
reaches the fetch call has depth at most `max_depth`. -/
theorem crawl_budget_invariant (cfg : CrawlCfg) (startUrls : List Str) (fuel : Nat) :
    (crawlLoop cfg fuel (initState startUrls)).visited.Nodup ∧
    (crawlLoop cfg fuel (initState startUrls)).visited.length ≤ cfg.maxPages ∧
    (∀ e ∈ (crawlLoop cfg fuel (initState startUrls)).fetched, e.2 ≤ cfg.maxDepth) ∧
    (crawl cfg startUrls fuel).pages_crawled ≤ cfg.maxPages := by
  obtain ⟨hinv, hlen⟩ := crawlLoop_inv cfg (startUrls.map ((·, 0))) fuel
    (initState startUrls) (initState_inv cfg.apex cfg.maxDepth startUrls)
    (by simp [initState])
  exact ⟨hinv.1, hlen, hinv.2.2.2.2.1, hlen⟩

/-- C5 witness: the budget theorem applied to a concrete crawl,
discharging the fetched-entry hypothesis at the seed entry. -/
theorem crawl_budget_invariant_witness :
    ((str "https://example.com/", 0) :
        Str × Nat).2 ≤
      (⟨str "example.com", 10, 1, [], fun _ => none⟩ : CrawlCfg).maxDepth :=
  (crawl_budget_invariant ⟨str "example.com", 10, 1, [], fun _ => none⟩
      [str "https://example.com/"] 3).2.2.1
    (str "https://example.com/", 0) (by decide)

/-- C10: in the serialized result, `urls` is identical to `pages`, and
`pages` (serialized from `pages.union(routes)`) is a superset of
`routes`; stated for every crawl state and for every crawl run. -/
theorem crawl_pages_superset_routes :
    (∀ st : CrawlState,
      (serialize_crawl st).discovered.urls = (serialize_crawl st).discovered.pages ∧
      ∀ v ∈ (serialize_crawl st).discovered.routes,
        v ∈ (serialize_crawl st).discovered.pages) ∧
    (∀ (cfg : CrawlCfg) (startUrls : List Str) (fuel : Nat),
      (crawl cfg startUrls fuel).discovered.urls
        = (crawl cfg startUrls fuel).discovered.pages ∧
      ∀ v ∈ (crawl cfg startUrls fuel).discovered.routes,
        v ∈ (crawl cfg startUrls fuel).discovered.pages) := by
  have hmain : ∀ st : CrawlState,
      (serialize_crawl st).discovered.urls = (serialize_crawl st).discovered.pages ∧
      ∀ v ∈ (serialize_crawl st).discovered.routes,
        v ∈ (serialize_crawl st).discovered.pages := by
    intro st
    constructor
    · rfl
    · intro v hv
      simp only [serialize_crawl] at hv ⊢
      rw [mem_sortedSet] at hv ⊢
      rw [List.mem_filter] at hv ⊢
      obtain ⟨hvm, hvne⟩ := hv
      obtain ⟨u, hu, rfl⟩ := List.mem_map.mp hvm
      exact ⟨List.mem_map.mpr ⟨u, mem_pyUnion.mpr (Or.inr hu), rfl⟩, hvne⟩
  exact ⟨hmain, fun cfg s f => hmain _⟩

/-- C10 witness: a state with a nonempty routes bucket, its serialized
route member landing in the serialized pages list. -/
theorem crawl_pages_superset_routes_witness :
    (str "https://example.com/r") ∈
      (serialize_crawl
        { initState [] with routes := [str "https://example.com/r"] }).discovered.pages :=
  (crawl_pages_superset_routes.1
      { initState [] with routes := [str "https://example.com/r"] }).2
    (str "https://example.com/r") (by decide)

/-- C3 (amended): for an in-scope parseable candidate, `asset`, `feed`
and `api` classifications are recorded in their buckets and everything
else in `pages`; but scheduling is independent of the classification —
*every* in-scope candidate (assets and feeds included) is enqueued at
`depth+1` exactly when `depth < max_depth` and it is not yet visited. -/
theorem processLink_routing (apex : Str) (mD d : Nat) (st : CrawlState) (link : Str)
    (p : UrlParts) (hp : pyUrlsplit link = some p)
    (hs : strStarts p.scheme (str "http") = true)
    (hhost : lowerStr (pyHostname p.netloc) ≠ [])
    (hscope : lowerStr (pyHostname p.netloc) = apex ∨
      strEnds (lowerStr (pyHostname p.netloc)) ('.' :: apex) = true) :
    (classify_url link = str "asset" →
      (processLink apex mD d st link).assets = pyInsert link st.assets) ∧
    (classify_url link = str "feed" →
      (processLink apex mD d st link).feeds = pyInsert link st.feeds) ∧
    (classify_url link = str "api" →
      (processLink apex mD d st link).api = pyInsert link st.api) ∧
    (classify_url link ≠ str "asset" → classify_url link ≠ str "feed" →
      classify_url link ≠ str "api" →
      (processLink apex mD d st link).pages = pyInsert link st.pages) ∧
    ((processLink apex mD d st link).queue =
      st.queue ++ (if d < mD ∧ link ∉ st.visited then [(link, d + 1)] else [])) ∧
    ((processLink apex mD d st link).everEnqueued =
      st.everEnqueued ++
        (if d < mD ∧ link ∉ st.visited then [(link, d + 1)] else [])) := by
  have hsc : (decide (lowerStr (pyHostname p.netloc) = apex)
      || strEnds (lowerStr (pyHostname p.netloc)) ('.' :: apex)) = true := by
    rcases hscope with h | h
    · simp [h]
    · simp [h]
  have hb3 : (decide (lowerStr (pyHostname p.netloc) ≠ apex) &&
      !strEnds (lowerStr (pyHostname p.netloc)) ('.' :: apex)) = false := by
    rcases hscope with h | h
    · simp [h]
    · simp [h]
  unfold processLink
  rw [hp]
  simp only
  rw [hs]
  simp only [Bool.not_true, Bool.false_eq_true, if_false]
  rw [if_neg hhost]
  rw [hb3]
  simp only [Bool.false_eq_true, if_false]
  obtain ⟨f1, f2, f3, f4, f5, f6, f7, f8, f9, f10, f11⟩ :=
    recordLink_fields link (classify_url link) st
  obtain ⟨g1, g2, g3, g4, g5, g6, g7, g8, g9, g10, g11, g12, g13⟩ :=
    recordHostDir_fields apex (lowerStr (pyHostname p.netloc))
      (classify_url link) p.path (recordLink link (classify_url link) st)
  obtain ⟨s1, s2, s3, s4, s5, s6, s7, s8, s9, s10, s11, s12, s13, sq, se⟩ :=
    scheduleLink_spec apex mD d (lowerStr (pyHostname p.netloc)) link
      (recordHostDir apex (lowerStr (pyHostname p.netloc))
        (classify_url link) p.path (recordLink link (classify_url link) st))
  refine ⟨?_, ?_, ?_, ?_, ?_, ?_⟩
  · intro hk
    rw [s6, g7, hk]
    unfold recordLink
    rw [if_pos rfl]
  · intro hk
    rw [s5, g6, hk]
    unfold recordLink
    rw [if_neg (by decide), if_pos rfl]
  · intro hk
    rw [s4, g5, hk]
    unfold recordLink
    rw [if_neg (by decide), if_neg (by decide), if_pos rfl]
  · intro hk1 hk2 hk3
    rw [s3, g4]
    unfold recordLink
    rw [if_neg hk1, if_neg hk2, if_neg hk3]
  · have hvq : (recordHostDir apex (lowerStr (pyHostname p.netloc))
        (classify_url link) p.path
        (recordLink link (classify_url link) st)).visited = st.visited := by
      rw [g1, f1]
    have hqq : (recordHostDir apex (lowerStr (pyHostname p.netloc))
        (classify_url link) p.path
        (recordLink link (classify_url link) st)).queue = st.queue := by
      rw [g2, f2]
    unfold scheduleLink
    by_cases hd : d < mD
    · rw [if_pos (by simp [hd, hsc])]
      by_cases hv : link ∈ st.visited
      · rw [if_neg (by simp [hvq, List.elem_iff, hv]), hqq,
          if_neg (by simp [hv]), List.append_nil]
      · rw [if_pos (by simp [hvq, List.elem_iff, hv])]
        simp only [hqq, if_pos (And.intro hd hv)]
    · rw [if_neg (by simp [hd]), hqq, if_neg (by simp [hd]), List.append_nil]
  · have hvq : (recordHostDir apex (lowerStr (pyHostname p.netloc))
        (classify_url link) p.path
        (recordLink link (classify_url link) st)).visited = st.visited := by
      rw [g1, f1]
    have hqe : (recordHostDir apex (lowerStr (pyHostname p.netloc))
        (classify_url link) p.path
        (recordLink link (classify_url link) st)).everEnqueued
        = st.everEnqueued := by
      rw [g12, f10]
    unfold scheduleLink
    by_cases hd : d < mD
    · rw [if_pos (by simp [hd, hsc])]
      by_cases hv : link ∈ st.visited
      · rw [if_neg (by simp [hvq, List.elem_iff, hv]), hqe,
          if_neg (by simp [hv]), List.append_nil]
      · rw [if_pos (by simp [hvq, List.elem_iff, hv])]
        simp only [hqe, if_pos (And.intro hd hv)]
    · rw [if_neg (by simp [hd]), hqe, if_neg (by simp [hd]), List.append_nil]

/-- C3 witness: the routing theorem at a concrete asset link. -/
theorem processLink_routing_witness :
    (processLink (str "example.com") 1 0 (initState [str "https://example.com/"])
        (str "https://example.com/pic.png")).assets
      = pyInsert (str "https://example.com/pic.png")
          (initState [str "https://example.com/"]).assets :=
  (processLink_routing (str "example.com") 1 0 (initState [str "https://example.com/"])
      (str "https://example.com/pic.png")
      ⟨str "https", str "example.com", str "/pic.png", [], []⟩
      (by decide) (by decide) (by decide) (Or.inl (by decide))).1 (by decide)

/-- C1 (amended): the scope filter protects exactly the link-derived
buckets.  Every recorded asset/feed/api URL is in scope, every recorded
subdomain is a strict subdomain of the apex, every directory entry is
keyed by the apex, `routes` stays empty (script analysis off), every
enqueued entry beyond the seeds is in scope, and every serialized
api/assets/feeds member is the normalization of an in-scope URL.  The
`pages` bucket is *not* protected: post-redirect final URLs,
search-target candidates and seed-query URLs enter it with no scope
check (see the counterexample). -/
theorem crawl_scope_invariant (cfg : CrawlCfg) (startUrls : List Str) (fuel : Nat) :
    (∀ u ∈ (crawlLoop cfg fuel (initState startUrls)).assets,
      linkInScope cfg.apex u = true) ∧
    (∀ u ∈ (crawlLoop cfg fuel (initState startUrls)).feeds,
      linkInScope cfg.apex u = true) ∧
    (∀ u ∈ (crawlLoop cfg fuel (initState startUrls)).api,
      linkInScope cfg.apex u = true) ∧
    (crawlLoop cfg fuel (initState startUrls)).routes = [] ∧
    (∀ h ∈ (crawlLoop cfg fuel (initState startUrls)).subdomains,
      strEnds h ('.' :: cfg.apex) = true ∧ h ≠ cfg.apex) ∧
    (∀ kv ∈ (crawlLoop cfg fuel (initState startUrls)).dirs, kv.1 = cfg.apex) ∧
    (∀ e ∈ (crawlLoop cfg fuel (initState startUrls)).everEnqueued,
      e ∈ startUrls.map ((·, 0)) ∨ linkInScope cfg.apex e.1 = true) ∧
    (∀ v ∈ (crawl cfg startUrls fuel).discovered.api,
      ∃ u, linkInScope cfg.apex u = true ∧ v = normalize_existing u) ∧
    (∀ v ∈ (crawl cfg startUrls fuel).discovered.assets,
      ∃ u, linkInScope cfg.apex u = true ∧ v = normalize_existing u) ∧
    (∀ v ∈ (crawl cfg startUrls fuel).discovered.feeds,
      ∃ u, linkInScope cfg.apex u = true ∧ v = normalize_existing u) ∧
    (crawl cfg startUrls fuel).discovered.routes = [] := by
  obtain ⟨hinv, _⟩ := crawlLoop_inv cfg (startUrls.map ((·, 0))) fuel
    (initState startUrls) (initState_inv cfg.apex cfg.maxDepth startUrls)
    (by simp [initState])
  obtain ⟨hvis, hrts, hq, he, hf, has, hfe, hap, hsub, hdir⟩ := hinv
  have hser : ∀ l : List Str, (∀ u ∈ l, linkInScope cfg.apex u = true) →
      ∀ v ∈ sortedSet ((l.map normalize_existing).filter (· ≠ [])),
      ∃ u, linkInScope cfg.apex u = true ∧ v = normalize_existing u := by
    intro l hl v hv
    rw [mem_sortedSet, List.mem_filter] at hv
    obtain ⟨u, hu, rfl⟩ := List.mem_map.mp hv.1
    exact ⟨u, hl u hu, rfl⟩
  refine ⟨has, hfe, hap, hrts, hsub, hdir,
    fun e hemem => (he e hemem).1, ?_, ?_, ?_, ?_⟩
  · exact hser _ hap
  · exact hser _ has
  · exact hser _ hfe
  · show sortedSet (((crawlLoop cfg fuel (initState startUrls)).routes.map
      normalize_existing).filter (· ≠ [])) = []
    rw [hrts]
    rfl

/-- The fetch oracle of the concrete scenario: the seed page is HTML
and links to an asset, a page, a subdomain feed and an API path, and
its body carries a `"target"` value pointing at an out-of-scope host;
every other URL returns a non-HTML 200. -/
def exFetch : Str → Option FetchResult := fun u =>
  if u = str "https://example.com/" then
    some ⟨200, true, true, str "https://example.com/",
      [str "https://example.com/pic.png", str "https://example.com/about",
       str "https://sub.example.com/feed/rss", str "https://example.com/api/v1/users"],
      [str "https://evil.com/x"]⟩
  else some ⟨200, false, false, u, [], []⟩

/-- The crawl configuration of the concrete scenario. -/
def exCfg : CrawlCfg := ⟨str "example.com", 10, 1, [], exFetch⟩

/-- C1 counterexample: the search-target harvesting records URLs in
`pages` with no scope check, so an out-of-scope host appears in the
returned `pages` bucket. -/
theorem crawl_scope_cex :
    (str "https://evil.com/x") ∈
      (crawl exCfg [str "https://example.com/"] 8).discovered.pages ∧
    linkInScope (str "example.com") (str "https://evil.com/x") = false := by
  decide

/-- C1 witness: the amended theorem applied to the concrete scenario,
resolving the enqueued-entry disjunction at the asset link. -/
theorem crawl_scope_invariant_witness :
    linkInScope (str "example.com") (str "https://example.com/pic.png") = true := by
  have h := (crawl_scope_invariant exCfg [str "https://example.com/"] 8).2.2.2.2.2.2.1
    (str "https://example.com/pic.png", 1) (by decide)
  rcases h with h | h
  · exact absurd h (by decide)
  · exact h

/-- C3 counterexample: with depth remaining, the in-scope link
`pic.png` — classified `asset` — is appended to the frontier queue and
later dequeued and fetched, refuting "asset results are never
enqueued". -/
theorem crawl_asset_enqueued_cex :
    classify_url (str "https://example.com/pic.png") = str "asset" ∧
    (str "https://example.com/pic.png", 1) ∈
      (crawlLoop exCfg 8 (initState [str "https://example.com/"])).everEnqueued ∧
    (str "https://example.com/pic.png") ∈
      (crawlLoop exCfg 8 (initState [str "https://example.com/"])).visited := by
  decide

end WebRecon
